import Mathlib

/-!
# GoYujin audit-log service: embedding and properties

A shallow embedding of `main.go` (the log persistence engine of the GoYujin
audit service) and theorems about it.

Modelling conventions

* A Go `string` is a byte sequence (`GoString`); file names and paths are kept
  as Lean strings.
* `int64` values are integers, wrapped with `wrapInt64` where Go arithmetic
  can overflow.
* The file system of the write path is explicit state (`Disk`): a directory
  maps a path to an inode, an inode holds bytes; the inodes below `next` are
  the ones in use. An `os.File` is a name, the inode it was opened on, and a
  closed flag. The retention sweep works on the metadata of files by path
  (`Files`).
* Whatever the operating system decides during one call (clock readings,
  failing system calls, how many bytes a failing write transferred) is an
  input of the call (`Env`).
* Every system call of the write path is recorded in a trace (`Event`), so
  that statements such as "the file was reopened" can be made.
* Library functions are modelled after the Go standard library:
  `encoding/json` string escaping (as of Go 1.22), `unicode/utf8` decoding,
  `encoding/base64` standard encoding, `filepath.Ext`. Clock readings are taken
  far from the limits of `time.Time`, so that `Add` is exact.
-/

namespace GoYujin

/-! ## Basic types -/

/-- One byte. -/
abbrev Byte := Fin 256

/-- Go `string`: a sequence of bytes. -/
abbrev GoString := List Byte

/-- The bytes of an ASCII literal. -/
def ascii (s : String) : GoString := s.toList.map (fun c => Fin.ofNat c.toNat)

/-- The line break byte. -/
def newline : Byte := 10

/-- Value held by a Go `int64` after an arithmetic operation whose exact result is `x`. -/
def wrapInt64 (x : Int) : Int := (x + 2 ^ 63) % 2 ^ 64 - 2 ^ 63

/-- Go `Config`. `LogFileLifetime` is a `time.Duration` (int64 nanoseconds),
`MaxLogSize` an int64 (`max_log_size_mb`). -/
structure Config where
  Port : String
  LogDir : String
  LogFileLifetime : Int
  MaxLogSize : Int
  TimeZone : String

/-- A reading of `time.Now().In(ls.location)`: the wall-clock fields in the
configured location and the offset of that location from UTC in seconds. -/
structure Time where
  year : Nat
  month : Nat
  day : Nat
  hour : Nat
  minute : Nat
  second : Nat
  zoneOffset : Int

/-- Go `time.appendInt` for a non-negative value: decimal, zero-padded to `width`. -/
def appendInt (x width : Nat) : String :=
  String.mk (List.replicate (width - (Nat.repr x).length) '0') ++ Nat.repr x

/-- The layout `2006-01-02`. -/
def formatDate (t : Time) : String :=
  appendInt t.year 4 ++ "-" ++ appendInt t.month 2 ++ "-" ++ appendInt t.day 2

/-- The layout `15-04-05`. -/
def formatClock (t : Time) : String :=
  appendInt t.hour 2 ++ "-" ++ appendInt t.minute 2 ++ "-" ++ appendInt t.second 2

/-- Go `filepath.Join(dir, name)` for a directory path that is already clean
(non-empty, no trailing separator) and a plain file name. -/
def filepathJoin (dir name : String) : String := dir ++ "/" ++ name

/-! ## File system -/

/-- Pointwise update of a function. -/
def upd {α β : Type} [DecidableEq α] (f : α → β) (a : α) (v : β) : α → β :=
  fun x => if x = a then v else f x

/-- File system state: the directory (path to inode), the content of each
inode, and the next unused inode number. -/
structure Disk where
  dir : String → Option Nat
  data : Nat → GoString
  next : Nat

/-- Go `os.File`: the name it was opened with, the inode it refers to, and
whether `Close` has been called on it. -/
structure File where
  name : String
  ino : Nat
  closed : Bool
deriving DecidableEq, Repr

/-- System calls of the write path, in the order they were made. -/
inductive Event where
  | close (name : String)
  | openFile (name : String) (ok : Bool)
  | stat (name : String) (ok : Bool)
  | rename (oldName newName : String) (ok : Bool)
  | write (name : String) (ino : Nat) (bytes : GoString) (ok : Bool)
  | sync (name : String) (ok : Bool)
deriving DecidableEq, Repr

/-- Errors `WriteLog` can return, by the place that raised them. -/
inductive Failure where
  | openFailed
  | statFailed
  | reopenFailed
  | marshalFailed
  | writeFailed
  | syncFailed
deriving DecidableEq, Repr

/-- What the environment decides during one `WriteLog` call. -/
structure Env where
  /-- The reading of the clock in `getLogFileName`. -/
  now : Time
  /-- The reading of the clock for the `15-04-05` part of the archive name. -/
  nowStamp : Time
  /-- The reading of the clock for the `2006-01-02` part of the archive name. -/
  nowDate : Time
  /-- The `os.OpenFile` of the day check fails. -/
  openErr : Bool
  /-- The `Stat` of an open handle fails. -/
  statErr : Bool
  /-- The `os.Rename` fails. -/
  renameErr : Bool
  /-- The `os.OpenFile` after the rename fails. -/
  reopenErr : Bool
  /-- Outcome of `WriteString`: `none` when every byte was written, `some k`
  when it returned an error after transferring `k` bytes. -/
  written : Option Nat
  /-- The `Sync` fails. -/
  syncErr : Bool

/-- Go `os.OpenFile(name, O_CREATE|O_APPEND|O_WRONLY, 0644)`: opens the file at
`name`, creating it empty when the path is free. -/
def osOpenFile (fails : Bool) (name : String) (d : Disk) : Option (File × Disk) :=
  if fails then none
  else
    match d.dir name with
    | some i => some ({ name := name, ino := i, closed := false }, d)
    | none =>
      some ({ name := name, ino := d.next, closed := false },
            { dir := upd d.dir name (some d.next),
              data := upd d.data d.next [],
              next := d.next + 1 })

/-- Go `os.Rename(oldName, newName)`: moves the directory entry, replacing a
file already at `newName`; fails when nothing is at `oldName`. -/
def osRename (fails : Bool) (oldName newName : String) (d : Disk) : Bool × Disk :=
  if fails then (false, d)
  else
    match d.dir oldName with
    | none => (false, d)
    | some i =>
      if oldName = newName then (true, d)
      else (true, { d with dir := upd (upd d.dir newName (some i)) oldName none })

/-- Go `(*File).Close`. -/
def File.close (f : File) : File := { f with closed := true }

/-- Go `(*File).Stat` followed by `Size()`: fails on a closed file. -/
def File.statSize (f : File) (fails : Bool) (d : Disk) : Option Int :=
  if f.closed || fails then none else some ((d.data f.ino).length : Int)

/-- Go `(*File).WriteString` on a file opened with `O_APPEND`: the bytes that
were transferred are added at the end of the inode. Returns the disk and
whether the call succeeded. -/
def File.writeString (f : File) (outcome : Option Nat) (s : GoString) (d : Disk) :
    Disk × Bool :=
  if f.closed then (d, false)
  else
    match outcome with
    | none => ({ d with data := upd d.data f.ino (d.data f.ino ++ s) }, true)
    | some k => ({ d with data := upd d.data f.ino (d.data f.ino ++ s.take k) }, false)

/-! ## The service -/

/-- Go `LogService` (the lock and the location are not state of the model: the
clock readings of `Env` are already in the configured location). -/
structure LogService where
  config : Config
  fileHandle : Option File

/-- Go `NewLogService`, as far as the state of the service goes: no file is
open yet. -/
def NewLogService (config : Config) : LogService :=
  { config := config, fileHandle := none }

/-- Result of a call on the service: the service and the disk after the call,
the error returned (`none` for `nil`), and the system calls made. -/
structure Outcome where
  ls : LogService
  disk : Disk
  err : Option Failure
  trace : List Event

/-- Go `getLogFileName`. -/
def getLogFileName (ls : LogService) (now : Time) : String :=
  filepathJoin ls.config.LogDir ("audit_" ++ formatDate now ++ ".log")

/-- The archive name built in `rotateLogIfNeeded`. -/
def archiveName (ls : LogService) (nowDate nowStamp : Time) : String :=
  filepathJoin ls.config.LogDir
    ("audit_" ++ formatDate nowDate ++ "_" ++ formatClock nowStamp ++ ".log")

/-- The size test of `rotateLogIfNeeded`:
`ls.config.MaxLogSize > 0 && fileInfo.Size() > ls.config.MaxLogSize*1024*1024`. -/
def exceedsMaxSize (ls : LogService) (size : Int) : Bool :=
  decide (ls.config.MaxLogSize > 0) &&
    decide (size > wrapInt64 (wrapInt64 (ls.config.MaxLogSize * 1024) * 1024))

/-- First block of `rotateLogIfNeeded`: when no file is open or the open file
is not named for today, close the old handle and open today's file. -/
def openCurrent (env : Env) (ls : LogService) (d : Disk) (currentFile : String) : Outcome :=
  let stale : Bool :=
    match ls.fileHandle with
    | none => true
    | some h => decide (h.name ≠ currentFile)
  if stale then
    let (ls1, t1) : LogService × List Event :=
      match ls.fileHandle with
      | none => (ls, [])
      | some h => ({ ls with fileHandle := some h.close }, [Event.close h.name])
    match osOpenFile env.openErr currentFile d with
    | none =>
      { ls := ls1, disk := d, err := some Failure.openFailed,
        trace := t1 ++ [Event.openFile currentFile false] }
    | some (file, d1) =>
      { ls := { ls1 with fileHandle := some file }, disk := d1, err := none,
        trace := t1 ++ [Event.openFile currentFile true] }
  else
    { ls := ls, disk := d, err := none, trace := [] }

/-- Second block of `rotateLogIfNeeded`: inspect the size of the open file and,
when it exceeds the maximum, close it, rename it to the archive name and open
a file at today's name again. -/
def checkSize (env : Env) (ls : LogService) (d : Disk) (currentFile : String) : Outcome :=
  match ls.fileHandle with
  | none => { ls := ls, disk := d, err := some Failure.statFailed, trace := [] }
  | some h =>
    match h.statSize env.statErr d with
    | none =>
      { ls := ls, disk := d, err := some Failure.statFailed, trace := [Event.stat h.name false] }
    | some size =>
      if exceedsMaxSize ls size then
        let ls1 : LogService := { ls with fileHandle := some h.close }
        let newName := archiveName ls env.nowDate env.nowStamp
        let (ok, d1) := osRename env.renameErr currentFile newName d
        let t := [Event.stat h.name true, Event.close h.name,
                  Event.rename currentFile newName ok]
        match osOpenFile env.reopenErr currentFile d1 with
        | none =>
          { ls := ls1, disk := d1, err := some Failure.reopenFailed,
            trace := t ++ [Event.openFile currentFile false] }
        | some (file, d2) =>
          { ls := { ls1 with fileHandle := some file }, disk := d2, err := none,
            trace := t ++ [Event.openFile currentFile true] }
      else
        { ls := ls, disk := d, err := none, trace := [Event.stat h.name true] }

/-- Go `rotateLogIfNeeded`. -/
def rotateLogIfNeeded (env : Env) (ls : LogService) (d : Disk) : Outcome :=
  let currentFile := getLogFileName ls env.now
  let r := openCurrent env ls d currentFile
  match r.err with
  | some _ => r
  | none =>
    let r2 := checkSize env r.ls r.disk currentFile
    { r2 with trace := r.trace ++ r2.trace }

/-! ## JSON encoding of an entry -/

/-- The digit of `"0123456789abcdef"` at index `n`. -/
def hex (n : Nat) : Byte :=
  if n < 10 then Fin.ofNat (48 + n) else Fin.ofNat (87 + n)

/-- Go `htmlSafeSet` of `encoding/json`: the ASCII bytes written without escape. -/
def htmlSafe (b : Byte) : Bool :=
  decide (0x20 ≤ b.val) && decide (b.val < 0x80) &&
    !(b.val == 0x22 || b.val == 0x26 || b.val == 0x3C || b.val == 0x3E || b.val == 0x5C)

/-- The ASCII branch of `encoding/json.appendString` (with HTML escaping, as
`json.Marshal` uses it): what is written for a byte below `0x80`. Versions of
Go before 1.22 write `\u0008` and `\u000c` where this one writes `\b` and `\f`. -/
def escapeASCII (b : Byte) : GoString :=
  if htmlSafe b then [b]
  else if b.val = 0x5C || b.val = 0x22 then [0x5C, b]
  else if b.val = 0x08 then ascii "\\b"
  else if b.val = 0x0C then ascii "\\f"
  else if b.val = 0x0A then ascii "\\n"
  else if b.val = 0x0D then ascii "\\r"
  else if b.val = 0x09 then ascii "\\t"
  else ascii "\\u00" ++ [hex (b.val / 16), hex (b.val % 16)]

/-- Go `utf8.RuneError`. -/
def runeError : Nat := 0xFFFD

/-- The table `first` of `unicode/utf8`: information about the first byte of
a UTF-8 sequence. -/
def utf8First (b : Byte) : Nat :=
  if b.val < 0x80 then 0xF0
  else if b.val < 0xC2 then 0xF1
  else if b.val < 0xE0 then 0x02
  else if b.val = 0xE0 then 0x13
  else if b.val < 0xED then 0x03
  else if b.val = 0xED then 0x23
  else if b.val < 0xF0 then 0x03
  else if b.val = 0xF0 then 0x34
  else if b.val < 0xF4 then 0x04
  else if b.val = 0xF4 then 0x44
  else 0xF1

/-- The table `acceptRanges` of `unicode/utf8`: the range allowed for the
second byte. -/
def acceptRange (i : Nat) : Nat × Nat :=
  match i with
  | 0 => (0x80, 0xBF)
  | 1 => (0xA0, 0xBF)
  | 2 => (0x80, 0x9F)
  | 3 => (0x90, 0xBF)
  | 4 => (0x80, 0x8F)
  | _ => (0, 0)

/-- Whether a byte is a UTF-8 continuation byte (`locb..hicb`). -/
def isCont (b : Byte) : Bool := decide (0x80 ≤ b.val) && decide (b.val ≤ 0xBF)

/-- Go `utf8.DecodeRuneInString`: the rune at the start of `s` and its width in
bytes; `(runeError, 1)` for an invalid encoding. -/
def decodeRuneInString (s : GoString) : Nat × Nat :=
  match s with
  | [] => (runeError, 0)
  | s0 :: rest =>
    let x := utf8First s0
    if x ≥ 0xF0 then
      (if x = 0xF1 then runeError else s0.val, 1)
    else
      let sz := x % 8
      let accept := acceptRange (x / 16)
      if rest.length + 1 < sz then (runeError, 1)
      else
        match rest with
        | [] => (runeError, 1)
        | s1 :: rest1 =>
          if s1.val < accept.1 || accept.2 < s1.val then (runeError, 1)
          else if sz ≤ 2 then ((s0.val % 32) * 64 + s1.val % 64, 2)
          else
            match rest1 with
            | [] => (runeError, 1)
            | s2 :: rest2 =>
              if !isCont s2 then (runeError, 1)
              else if sz ≤ 3 then
                ((s0.val % 16) * 4096 + (s1.val % 64) * 64 + s2.val % 64, 3)
              else
                match rest2 with
                | [] => (runeError, 1)
                | s3 :: _ =>
                  if !isCont s3 then (runeError, 1)
                  else
                    ((s0.val % 8) * 262144 + (s1.val % 64) * 4096
                      + (s2.val % 64) * 64 + s3.val % 64, 4)

/-- The loop of `encoding/json.appendString`. The index arithmetic of the
source (`i += size`) is carried as `skip`: the number of bytes that follow and
belong to the rune just decoded; `copy` tells whether they are written as they
are (a valid rune) or left out (a rune replaced by an escape). -/
def appendStringLoop : Nat → Bool → GoString → GoString
  | _, _, [] => []
  | k + 1, copy, b :: rest => (if copy then [b] else []) ++ appendStringLoop k copy rest
  | 0, _, b :: rest =>
    if b.val < 0x80 then escapeASCII b ++ appendStringLoop 0 false rest
    else
      let r := decodeRuneInString (b :: rest.take 3)
      if r.1 = runeError ∧ r.2 = 1 then ascii "\\ufffd" ++ appendStringLoop 0 false rest
      else if r.1 = 0x2028 ∨ r.1 = 0x2029 then
        ascii "\\u202" ++ [hex (r.1 % 16)] ++ appendStringLoop (r.2 - 1) false rest
      else b :: appendStringLoop (r.2 - 1) true rest

/-- Go `encoding/json.appendString`: a string as a JSON string literal. -/
def appendString (s : GoString) : GoString :=
  ascii "\"" ++ appendStringLoop 0 false s ++ ascii "\""

/-- Decimal digits of `n`, most significant first, in front of `acc`. -/
def decimalDigits : Nat → Nat → GoString → GoString
  | 0, _, acc => acc
  | fuel + 1, n, acc =>
    if n < 10 then hex n :: acc
    else decimalDigits fuel (n / 10) (hex (n % 10) :: acc)

/-- Go `strconv.AppendInt(_, i, 10)`. -/
def formatInt (i : Int) : GoString :=
  (if i < 0 then ascii "-" else []) ++ decimalDigits (i.natAbs + 1) i.natAbs []

/-- A Go `interface{}` value as the code observes it: `nil`, a string, or any
other value, which is known only through the result of `json.Marshal` on it
(`none` when that fails) and its `%v` rendering. -/
inductive Value where
  | nil
  | str (s : GoString)
  | other (json : Option GoString) (rendering : GoString)

/-- Go `LogEntry`. -/
structure LogEntry where
  Timestamp : GoString
  UserID : GoString
  Action : GoString
  Response : Int
  Error : Option GoString
  Parameters : GoString
  Query : GoString
  Body : Value
  AdditionalInfo : GoString

/-- Go `json.Marshal` of an `interface{}` value. -/
def marshalValue (v : Value) : Option GoString :=
  match v with
  | Value.nil => some (ascii "null")
  | Value.str s => some (appendString s)
  | Value.other json _ => json

/-- The `error` member of an entry: left out for a nil pointer (`omitempty`). -/
def marshalError (e : Option GoString) : GoString :=
  match e with
  | none => []
  | some s => ascii "\"error\":" ++ appendString s ++ ascii ","

/-- Go `json.Marshal(entry)` for a `LogEntry`: the members in declaration
order, in compact form. -/
def jsonMarshal (e : LogEntry) : Option GoString :=
  match marshalValue e.Body with
  | none => none
  | some body =>
    some (ascii "\x7b\"timestamp\":" ++ appendString e.Timestamp
      ++ ascii ",\"user_id\":" ++ appendString e.UserID
      ++ ascii ",\"action\":" ++ appendString e.Action
      ++ ascii ",\"response\":" ++ formatInt e.Response
      ++ ascii "," ++ marshalError e.Error
      ++ ascii "\"parameters\":" ++ appendString e.Parameters
      ++ ascii ",\"query\":" ++ appendString e.Query
      ++ ascii ",\"body\":" ++ body
      ++ ascii ",\"additional_info\":" ++ appendString e.AdditionalInfo
      ++ ascii "\x7d")

/-! ## Writing an entry -/

/-- Go `WriteLog` (the lock is not modelled: one call runs from start to end). -/
def WriteLog (env : Env) (ls : LogService) (d : Disk) (entry : LogEntry) : Outcome :=
  let r := rotateLogIfNeeded env ls d
  match r.err with
  | some _ => r
  | none =>
    match jsonMarshal entry with
    | none => { r with err := some Failure.marshalFailed }
    | some jsonData =>
      match r.ls.fileHandle with
      | none => { r with err := some Failure.writeFailed }
      | some h =>
        let line := jsonData ++ [newline]
        let (d1, ok) := h.writeString env.written line r.disk
        let written := r.trace ++ [Event.write h.name h.ino line ok]
        if !ok then
          { ls := r.ls, disk := d1, err := some Failure.writeFailed, trace := written }
        else if env.syncErr then
          { ls := r.ls, disk := d1, err := some Failure.syncFailed,
            trace := written ++ [Event.sync h.name false] }
        else
          { ls := r.ls, disk := d1, err := none,
            trace := written ++ [Event.sync h.name true] }

/-! ## Normalising a request -/

/-- The alphabet of `base64.StdEncoding`: the character for a 6-bit value. -/
def encodeStdChar (n : Nat) : Byte :=
  if n < 26 then Fin.ofNat (65 + n)
  else if n < 52 then Fin.ofNat (71 + n)
  else if n < 62 then Fin.ofNat (n - 4)
  else if n = 62 then 43
  else 47

/-- The `decodeMap` of `base64.StdEncoding`: the 6-bit value of a character of
the alphabet, `none` for any other byte. -/
def decodeMap (b : Byte) : Option Nat :=
  if 65 ≤ b.val ∧ b.val ≤ 90 then some (b.val - 65)
  else if 97 ≤ b.val ∧ b.val ≤ 122 then some (b.val - 71)
  else if 48 ≤ b.val ∧ b.val ≤ 57 then some (b.val + 4)
  else if b.val = 43 then some 62
  else if b.val = 47 then some 63
  else none

/-- The padding character `=`. -/
def padChar : Byte := 61

/-- Whether a byte is `\n` or `\r`, which the decoder steps over. -/
def isLineBreak (b : Byte) : Bool := b.val == 10 || b.val == 13

/-- Drops the line breaks at the start of the input. -/
def skipNewlines (s : GoString) : GoString := s.dropWhile isLineBreak

/-- The last step of `decodeQuantum`: the bytes of a quantum of 2, 3 or 4
six-bit values. -/
def quantumBytes (dbuf : List Nat) : GoString :=
  let val := dbuf.getD 0 0 * 262144 + dbuf.getD 1 0 * 4096 + dbuf.getD 2 0 * 64 + dbuf.getD 3 0
  match dbuf.length with
  | 4 => [Fin.ofNat (val / 65536), Fin.ofNat (val / 256), Fin.ofNat val]
  | 3 => [Fin.ofNat (val / 65536), Fin.ofNat (val / 256)]
  | 2 => [Fin.ofNat (val / 65536)]
  | _ => []

/-- What `decodeQuantum` asks for after the first `=` of a quantum of two
values: line breaks apart, the second `=` and then the end of the input. -/
def secondPad (rest : GoString) : Bool :=
  match skipNewlines rest with
  | [] => false
  | p :: rest1 => p == padChar && (skipNewlines rest1).isEmpty

/-- The decoding loop of `base64.StdEncoding` (`Decode` with `decodeQuantum`):
`dbuf` holds the six-bit values of the quantum being read. `none` stands for a
`CorruptInputError`. -/
def decodeLoop : List Nat → GoString → Option GoString
  | dbuf, [] => if dbuf.isEmpty then some [] else none
  | dbuf, c :: rest =>
    match decodeMap c with
    | some v =>
      if dbuf.length = 3 then
        (decodeLoop [] rest).map (fun tail => quantumBytes (dbuf ++ [v]) ++ tail)
      else decodeLoop (dbuf ++ [v]) rest
    | none =>
      if isLineBreak c then decodeLoop dbuf rest
      else if c ≠ padChar then none
      else if dbuf.length < 2 then none
      else if dbuf.length = 2 then
        if secondPad rest then some (quantumBytes dbuf) else none
      else if (skipNewlines rest).isEmpty then some (quantumBytes dbuf)
      else none

/-- Go `base64.StdEncoding.DecodeString`, `none` when it returns an error. -/
def decodeString (s : GoString) : Option GoString := decodeLoop [] s

/-- Go `base64.StdEncoding.EncodeToString`. -/
def encodeToString : GoString → GoString
  | b0 :: b1 :: b2 :: rest =>
    [encodeStdChar (b0.val / 4), encodeStdChar (b0.val % 4 * 16 + b1.val / 16),
     encodeStdChar (b1.val % 16 * 4 + b2.val / 64), encodeStdChar (b2.val % 64)]
      ++ encodeToString rest
  | [b0, b1] =>
    [encodeStdChar (b0.val / 4), encodeStdChar (b0.val % 4 * 16 + b1.val / 16),
     encodeStdChar (b1.val % 16 * 4), padChar]
  | [b0] => [encodeStdChar (b0.val / 4), encodeStdChar (b0.val % 4 * 16), padChar, padChar]
  | [] => []

/-- Go `processQuery`. -/
def processQuery (query : GoString) (isBase64 : Bool) : GoString :=
  if !isBase64 then query
  else
    match decodeString query with
    | none => query
    | some decoded => decoded

/-- Go `fs.DirEntry`, as far as `removeOldFiles` reads it. -/
structure DirEntry where
  name : String
  isDir : Bool

/-- What the sweep can learn of a file: its modification time (nanoseconds),
and whether `os.Stat` and `os.Remove` fail on it. -/
structure FileMeta where
  modTime : Int
  statFails : Bool
  removeFails : Bool
deriving DecidableEq, Repr

/-- The files the sweep acts on, by path. -/
abbrev Files := String → Option FileMeta

/-- The loop of Go `filepath.Ext`, on the characters of the path from the last
one backwards; `acc` is the part already passed. -/
def extLoop : List Char → List Char → String
  | [], _ => ""
  | c :: rest, acc =>
    if c = '/' then ""
    else if c = '.' then String.mk (c :: acc)
    else extLoop rest (c :: acc)

/-- Go `filepath.Ext`. -/
def filepathExt (path : String) : String := extLoop path.toList.reverse []

/-- Go `os.Stat(path)` followed by `ModTime()`. -/
def osStat (fs : Files) (path : String) : Option Int :=
  match fs path with
  | none => none
  | some m => if m.statFails then none else some m.modTime

/-- Go `os.Remove(path)`: `none` when it fails. -/
def osRemove (fs : Files) (path : String) : Option Files :=
  match fs path with
  | none => none
  | some m => if m.removeFails then none else some (upd fs path none)

/-- The `for` loop of `removeOldFiles`. -/
def sweep (logDir : String) (cutoffTime : Int) : List DirEntry → Files → Files
  | [], fs => fs
  | file :: rest, fs =>
    if file.isDir then sweep logDir cutoffTime rest fs
    else if filepathExt file.name ≠ ".log" then sweep logDir cutoffTime rest fs
    else
      let filePath := filepathJoin logDir file.name
      match osStat fs filePath with
      | none => sweep logDir cutoffTime rest fs
      | some modTime =>
        if modTime < cutoffTime then
          match osRemove fs filePath with
          | none => sweep logDir cutoffTime rest fs
          | some fs1 => sweep logDir cutoffTime rest fs1
        else sweep logDir cutoffTime rest fs

/-- Go `removeOldFiles`: `now` is the reading of `time.Now()` in nanoseconds,
`listing` the result of `os.ReadDir` (`none` when it fails). The negation of
the lifetime is an `int64` operation; `Add` and `Before` are exact. -/
def removeOldFiles (ls : LogService) (now : Int) (listing : Option (List DirEntry))
    (fs : Files) : Files :=
  match listing with
  | none => fs
  | some files =>
    let cutoffTime := now + wrapInt64 (-ls.config.LogFileLifetime)
    sweep ls.config.LogDir cutoffTime files fs

/-! ## Notions used to state the properties -/

/-- Whether a trace holds an `os.Rename`: the size branch of
`rotateLogIfNeeded` was taken. -/
def sizeRotated (t : List Event) : Bool :=
  t.any (fun e => match e with
    | Event.rename _ _ _ => true
    | _ => false)

/-- Whether a trace holds an `os.OpenFile`: the handle was replaced, or its
replacement was attempted. -/
def opened (t : List Event) : Bool :=
  t.any (fun e => match e with
    | Event.openFile _ _ => true
    | _ => false)

/-- The size `rotateLogIfNeeded` reads at its size test (`fileInfo.Size()`),
`none` when the call returns before the test. -/
def observedSize (env : Env) (ls : LogService) (d : Disk) : Option Int :=
  let r := openCurrent env ls d (getLogFileName ls env.now)
  match r.err, r.ls.fileHandle with
  | none, some h => h.statSize env.statErr r.disk
  | _, _ => none

/-- The `Close` recorded for the handle given up by the day check. -/
def closeEvents (ls : LogService) : List Event :=
  match ls.fileHandle with
  | none => []
  | some h => [Event.close h.name]

/-- No handle is held, or the held handle is not named `cur`. -/
def Stale (ls : LogService) (cur : String) : Prop :=
  ∀ h, ls.fileHandle = some h → h.name ≠ cur

/-- The line `WriteLog` writes for an entry (empty when `json.Marshal` fails). -/
def lineOf (entry : LogEntry) : GoString :=
  match jsonMarshal entry with
  | none => []
  | some jsonData => jsonData ++ [newline]

/-- A sequence of `WriteLog` calls, each on the state the previous one left. -/
def writeAll (ls : LogService) (d : Disk) : List (Env × LogEntry) → List Outcome
  | [] => []
  | call :: rest =>
    let r := WriteLog call.1 ls d call.2
    r :: writeAll r.ls r.disk rest

/-- Whether a byte belongs to the standard base64 alphabet. -/
def inAlphabet (b : Byte) : Bool := (decodeMap b).isSome

/-- Valid standard padded base64 (RFC 4648, section 4): groups of four
characters of the alphabet, the last group possibly ending in one or two
padding characters. -/
def validStdBase64 : GoString → Bool
  | [] => true
  | [a, b, c, e] =>
    inAlphabet a && inAlphabet b &&
      ((inAlphabet c && (inAlphabet e || e == padChar)) || (c == padChar && e == padChar))
  | a :: b :: c :: e :: rest =>
    inAlphabet a && inAlphabet b && inAlphabet c && inAlphabet e && validStdBase64 rest
  | _ => false

/-- A text without its `\n` and `\r` characters. -/
def stripLineBreaks (s : GoString) : GoString := s.filter (fun c => !isLineBreak c)

/-- Whether a file name ends in `.log`. -/
def endsInLog (name : String) : Bool := ".log".toList.isSuffixOf name.toList

/-- The entries of a listing the sweep deletes: a file, named `*.log`, whose
`os.Stat` succeeds with a modification time more than `maxAge` before `now`,
and whose `os.Remove` succeeds. -/
def expired (now maxAge : Int) (fs : Files) (logDir : String) (e : DirEntry) : Prop :=
  e.isDir = false ∧ endsInLog e.name = true ∧
    ∃ m, fs (filepathJoin logDir e.name) = some m ∧ m.statFails = false ∧
      now - m.modTime > maxAge ∧ m.removeFails = false

/-- What a disk keeps of an earlier one: the inodes in use keep their bytes,
and inodes allocated since are empty. -/
def Keeps (d d1 : Disk) : Prop :=
  d.next ≤ d1.next ∧ (∀ i, i < d.next → d1.data i = d.data i) ∧
    (∀ i, d.next ≤ i → i < d1.next → d1.data i = [])

/-- No `WriteString` is recorded in a trace. -/
def NoWrite (t : List Event) : Prop :=
  ∀ name ino bytes ok, Event.write name ino bytes ok ∉ t

/-- What makes the loop of `removeOldFiles` delete the file at path `p` when it
reaches the entry `e`. -/
def Deletes (logDir : String) (cutoffTime : Int) (fs : Files) (e : DirEntry) (p : String) :
    Prop :=
  e.isDir = false ∧ filepathExt e.name = ".log" ∧ filepathJoin logDir e.name = p ∧
    ∃ m, fs p = some m ∧ m.statFails = false ∧ m.modTime < cutoffTime ∧ m.removeFails = false

/-! ## Sample inputs -/

/-- A configuration with a size limit of one megabyte. -/
def sampleConfig : Config :=
  { Port := "8080", LogDir := "logs", LogFileLifetime := 172800000000000,
    MaxLogSize := 1, TimeZone := "UTC" }

/-- The fifth of January 2024, 03:04:05 UTC. -/
def sampleTime : Time :=
  { year := 2024, month := 1, day := 5, hour := 3, minute := 4, second := 5, zoneOffset := 0 }

/-- An environment in which every system call succeeds. -/
def sampleEnv : Env :=
  { now := sampleTime, nowStamp := sampleTime, nowDate := sampleTime, openErr := false,
    statErr := false, renameErr := false, reopenErr := false, written := none,
    syncErr := false }

/-- A disk with today's log file, holding two bytes. -/
def sampleDisk : Disk :=
  { dir := fun p => if p = "logs/audit_2024-01-05.log" then some 0 else none,
    data := fun i => if i = 0 then [120, 10] else [],
    next := 1 }

/-- An open handle on today's log file. -/
def sampleFile : File := { name := "logs/audit_2024-01-05.log", ino := 0, closed := false }

/-- A service holding `sampleFile`. -/
def sampleService : LogService := { config := sampleConfig, fileHandle := some sampleFile }

/-- An entry with a textual body. -/
def sampleEntry : LogEntry :=
  { Timestamp := ascii "05-01-2024 03:04:05+00", UserID := ascii "user123",
    Action := ascii "LOGIN", Response := 200, Error := none, Parameters := ascii "ip=1",
    Query := ascii "q", Body := Value.str (ascii "b"), AdditionalInfo := [] }

/-- The sample disk with `n` bytes in every file. -/
def filledDisk (n : Nat) : Disk := { sampleDisk with data := fun _ => List.replicate n 120 }

/-- The sample environment, but the first open of the log file fails. -/
def envOpenFails : Env := { sampleEnv with openErr := true }

/-- The sample environment, but the reopen after the rename fails. -/
def envReopenFails : Env := { sampleEnv with reopenErr := true }

/-- The sample environment, but the rename fails. -/
def envRenameFails : Env := { sampleEnv with renameErr := true }

/-- The sample environment, but the write fails after three bytes. -/
def envWriteFails : Env := { sampleEnv with written := some 3 }

/-- The sample service before its first write: no handle is held. -/
def freshService : LogService := NewLogService sampleConfig

/-- One hour in nanoseconds. -/
def hour : Int := 3600000000000

/-- The clock reading of the sample sweep. -/
def sweepNow : Int := 1000 * hour

/-- A log directory with a log file modified 72 hours ago, one modified 10
hours ago, and a text file modified 72 hours ago. -/
def sampleFiles : Files := fun p =>
  if p = "logs/old.log" then
    some { modTime := sweepNow - 72 * hour, statFails := false, removeFails := false }
  else if p = "logs/new.log" then
    some { modTime := sweepNow - 10 * hour, statFails := false, removeFails := false }
  else if p = "logs/notes.txt" then
    some { modTime := sweepNow - 72 * hour, statFails := false, removeFails := false }
  else none

/-- The listing of the sample log directory. -/
def sampleListing : List DirEntry :=
  [{ name := "new.log", isDir := false }, { name := "notes.txt", isDir := false },
   { name := "old.log", isDir := false }]

/-- The sample service with the lifetime set to the least 64-bit duration. -/
def minLifetimeService : LogService :=
  { config := { sampleConfig with LogFileLifetime := -9223372036854775808 },
    fileHandle := none }

theorem wrapInt64_mul_mul (n : Int) :
    wrapInt64 (wrapInt64 (n * 1024) * 1024) = wrapInt64 (n * 1048576) := by
  unfold wrapInt64
  norm_num
  omega

theorem wrapInt64_of_range (x : Int) (h1 : -2 ^ 63 ≤ x) (h2 : x < 2 ^ 63) : wrapInt64 x = x := by
  unfold wrapInt64
  norm_num at *
  omega


theorem osOpenFile_data (fails : Bool) (name : String) (d : Disk) (f : File) (d1 : Disk)
    (h : osOpenFile fails name d = some (f, d1)) :
    (∀ i, i < d.next → d1.data i = d.data i) ∧ d.next ≤ d1.next ∧
    (∀ i, d.next ≤ i → i < d1.next → d1.data i = []) ∧
    f.name = name ∧ f.closed = false ∧ d1.dir name = some f.ino ∧
    (∀ p, p ≠ name → d1.dir p = d.dir p) ∧
    (d.dir name = none → f.ino = d.next ∧ d1.next = d.next + 1 ∧ d1.data d.next = []) ∧
    (∀ i, d.dir name = some i → f.ino = i ∧ d1 = d) := by
  unfold osOpenFile at h
  split at h
  · simp at h
  · split at h
    · rename_i i hi
      simp only [Option.some.injEq, Prod.mk.injEq] at h
      obtain ⟨rfl, rfl⟩ := h
      simp [hi]
      intro i h1 h2
      omega
    · rename_i hi
      simp only [Option.some.injEq, Prod.mk.injEq] at h
      obtain ⟨rfl, rfl⟩ := h
      simp [hi, upd]
      refine ⟨?_, ?_, ?_⟩
      · intro i hi2 hi3
        omega
      · intro i h1 h2 h3
        omega
      · intro p hp hp2
        exact absurd hp2 hp

theorem osRename_data (fails : Bool) (a b : String) (d : Disk) :
    (osRename fails a b d).2.data = d.data ∧ (osRename fails a b d).2.next = d.next := by
  unfold osRename
  split
  · simp
  · split
    · simp
    · split <;> simp

theorem openCurrent_spec (env : Env) (ls : LogService) (d : Disk) (cur : String) :
    ((∃ h, ls.fileHandle = some h ∧ h.name = cur) ∧
      openCurrent env ls d cur = { ls := ls, disk := d, err := none, trace := [] })
    ∨ (Stale ls cur ∧ osOpenFile env.openErr cur d = none ∧
        openCurrent env ls d cur =
          { ls := { ls with fileHandle := ls.fileHandle.map File.close }, disk := d,
            err := some Failure.openFailed,
            trace := closeEvents ls ++ [Event.openFile cur false] })
    ∨ (Stale ls cur ∧ ∃ f d1, osOpenFile env.openErr cur d = some (f, d1) ∧
        openCurrent env ls d cur =
          { ls := { ls with fileHandle := some f }, disk := d1, err := none,
            trace := closeEvents ls ++ [Event.openFile cur true] }) := by
  unfold openCurrent Stale closeEvents
  cases hh : ls.fileHandle with
  | none =>
    right
    cases ho : osOpenFile env.openErr cur d with
    | none => left; obtain ⟨c, fh⟩ := ls; simp_all
    | some p => right; obtain ⟨f, d1⟩ := p; simp
  | some h =>
    by_cases hn : h.name = cur
    · left; simp [hn]
    · right
      cases ho : osOpenFile env.openErr cur d with
      | none => left; simp [hn]
      | some p => right; obtain ⟨f, d1⟩ := p; simp [hn]

theorem checkSize_spec (env : Env) (ls : LogService) (d : Disk) (cur : String) (h : File)
    (hh : ls.fileHandle = some h) :
    (h.statSize env.statErr d = none ∧
      checkSize env ls d cur =
        { ls := ls, disk := d, err := some Failure.statFailed, trace := [Event.stat h.name false] })
    ∨ (∃ size, h.statSize env.statErr d = some size ∧ exceedsMaxSize ls size = false ∧
      checkSize env ls d cur =
        { ls := ls, disk := d, err := none, trace := [Event.stat h.name true] })
    ∨ (∃ size, h.statSize env.statErr d = some size ∧ exceedsMaxSize ls size = true ∧
      osOpenFile env.reopenErr cur
        (osRename env.renameErr cur (archiveName ls env.nowDate env.nowStamp) d).2 = none ∧
      checkSize env ls d cur =
        { ls := { ls with fileHandle := some h.close },
          disk := (osRename env.renameErr cur (archiveName ls env.nowDate env.nowStamp) d).2,
          err := some Failure.reopenFailed,
          trace := [Event.stat h.name true, Event.close h.name,
            Event.rename cur (archiveName ls env.nowDate env.nowStamp)
              (osRename env.renameErr cur (archiveName ls env.nowDate env.nowStamp) d).1,
            Event.openFile cur false] })
    ∨ (∃ size f d2, h.statSize env.statErr d = some size ∧ exceedsMaxSize ls size = true ∧
      osOpenFile env.reopenErr cur
        (osRename env.renameErr cur (archiveName ls env.nowDate env.nowStamp) d).2 = some (f, d2) ∧
      checkSize env ls d cur =
        { ls := { ls with fileHandle := some f }, disk := d2, err := none,
          trace := [Event.stat h.name true, Event.close h.name,
            Event.rename cur (archiveName ls env.nowDate env.nowStamp)
              (osRename env.renameErr cur (archiveName ls env.nowDate env.nowStamp) d).1,
            Event.openFile cur true] }) := by
  unfold checkSize
  simp only [hh]
  cases hs : h.statSize env.statErr d with
  | none => left; simp
  | some size =>
    right
    cases hx : exceedsMaxSize ls size with
    | false => left; exact ⟨size, rfl, hx, by simp [hx]⟩
    | true =>
      right
      cases ho : osOpenFile env.reopenErr cur
        (osRename env.renameErr cur (archiveName ls env.nowDate env.nowStamp) d).2 with
      | none => left; exact ⟨size, rfl, hx, rfl, by simp [hx, ho]⟩
      | some p =>
        right; obtain ⟨f, d2⟩ := p
        exact ⟨size, f, d2, rfl, hx, rfl, by simp [hx, ho]⟩


theorem rotate_config (env : Env) (ls : LogService) (d : Disk) :
    (rotateLogIfNeeded env ls d).ls.config = ls.config := by
  rcases openCurrent_spec env ls d (getLogFileName ls env.now) with
    ⟨⟨h, hh, hn⟩, ho⟩ | ⟨hst, hof, ho⟩ | ⟨hst, f, d1, hof, ho⟩
  · simp only [rotateLogIfNeeded, ho]
    rcases checkSize_spec env ls d (getLogFileName ls env.now) h hh with
      ⟨_, hc⟩ | ⟨_, _, _, hc⟩ | ⟨_, _, _, _, hc⟩ | ⟨_, _, _, _, _, _, hc⟩ <;> simp [hc]
  · simp [rotateLogIfNeeded, ho]
  · simp only [rotateLogIfNeeded, ho]
    rcases checkSize_spec env { ls with fileHandle := some f } d1 (getLogFileName ls env.now) f rfl with
      ⟨_, hc⟩ | ⟨_, _, _, hc⟩ | ⟨_, _, _, _, hc⟩ | ⟨_, _, _, _, _, _, hc⟩ <;> simp [hc]

theorem Keeps.refl (d : Disk) : Keeps d d :=
  ⟨le_refl _, fun _ _ => rfl, fun _ h1 h2 => absurd h2 (not_lt.mpr h1)⟩

theorem Keeps.trans {a b c : Disk} (h1 : Keeps a b) (h2 : Keeps b c) : Keeps a c := by
  obtain ⟨n1, k1, e1⟩ := h1
  obtain ⟨n2, k2, e2⟩ := h2
  refine ⟨le_trans n1 n2, ?_, ?_⟩
  · intro i hi
    rw [k2 i (lt_of_lt_of_le hi n1), k1 i hi]
  · intro i hi1 hi2
    by_cases hb : i < b.next
    · rw [k2 i hb, e1 i hi1 hb]
    · exact e2 i (not_lt.mp hb) hi2

theorem osOpenFile_keeps (fails : Bool) (name : String) (d : Disk) (f : File) (d1 : Disk)
    (h : osOpenFile fails name d = some (f, d1)) : Keeps d d1 := by
  obtain ⟨h1, h2, h3, _⟩ := osOpenFile_data fails name d f d1 h
  exact ⟨h2, h1, h3⟩

theorem osRename_keeps (fails : Bool) (a b : String) (d : Disk) :
    Keeps d (osRename fails a b d).2 := by
  obtain ⟨h1, h2⟩ := osRename_data fails a b d
  refine ⟨by rw [h2], fun _ _ => by rw [h1], fun i hi1 hi2 => ?_⟩
  rw [h2] at hi2
  omega

theorem checkSize_keeps (env : Env) (ls : LogService) (d : Disk) (cur : String) :
    Keeps d (checkSize env ls d cur).disk := by
  cases hh : ls.fileHandle with
  | none => simp [checkSize, hh, Keeps.refl]
  | some h =>
    rcases checkSize_spec env ls d cur h hh with
      ⟨_, hc⟩ | ⟨_, _, _, hc⟩ | ⟨_, _, _, _, hc⟩ | ⟨_, f, d2, _, _, ho, hc⟩
    · simp [hc, Keeps.refl]
    · simp [hc, Keeps.refl]
    · simp only [hc]; exact osRename_keeps _ _ _ _
    · simp only [hc]
      exact (osRename_keeps _ _ _ _).trans (osOpenFile_keeps _ _ _ _ _ ho)

theorem rotate_keeps (env : Env) (ls : LogService) (d : Disk) :
    Keeps d (rotateLogIfNeeded env ls d).disk := by
  rcases openCurrent_spec env ls d (getLogFileName ls env.now) with
    ⟨⟨h, hh, hn⟩, ho⟩ | ⟨hst, hof, ho⟩ | ⟨hst, f, d1, hof, ho⟩
  · simp only [rotateLogIfNeeded, ho]
    exact checkSize_keeps _ _ _ _
  · simp [rotateLogIfNeeded, ho, Keeps.refl]
  · simp only [rotateLogIfNeeded, ho]
    exact (osOpenFile_keeps _ _ _ _ _ hof).trans (checkSize_keeps _ _ _ _)

theorem rotate_noWrite (env : Env) (ls : LogService) (d : Disk) :
    NoWrite (rotateLogIfNeeded env ls d).trace := by
  intro name ino bytes ok
  rcases openCurrent_spec env ls d (getLogFileName ls env.now) with
    ⟨⟨h, hh, hn⟩, ho⟩ | ⟨hst, hof, ho⟩ | ⟨hst, f, d1, hof, ho⟩
  · simp only [rotateLogIfNeeded, ho]
    rcases checkSize_spec env ls d (getLogFileName ls env.now) h hh with
      ⟨_, hc⟩ | ⟨_, _, _, hc⟩ | ⟨_, _, _, _, hc⟩ | ⟨_, _, _, _, _, _, hc⟩ <;> simp [hc]
  · cases hfh : ls.fileHandle <;> simp [rotateLogIfNeeded, ho, closeEvents, hfh]
  · simp only [rotateLogIfNeeded, ho]
    rcases checkSize_spec env { ls with fileHandle := some f } d1 (getLogFileName ls env.now) f rfl with
      ⟨_, hc⟩ | ⟨_, _, _, hc⟩ | ⟨_, _, _, _, hc⟩ | ⟨_, _, _, _, _, _, hc⟩ <;>
    cases hfh : ls.fileHandle <;> simp [hc, closeEvents, hfh]

theorem statSize_some (f : File) (fails : Bool) (d : Disk) (size : Int)
    (h : f.statSize fails d = some size) :
    f.closed = false ∧ fails = false ∧ size = ((d.data f.ino).length : Int) := by
  unfold File.statSize at h
  split at h
  · simp at h
  · rename_i hc
    simp at hc h
    exact ⟨hc.1, hc.2, h.symm⟩

theorem rotate_ok (env : Env) (ls : LogService) (d : Disk)
    (hok : (rotateLogIfNeeded env ls d).err = none) :
    ∃ h, (rotateLogIfNeeded env ls d).ls.fileHandle = some h ∧
      h.name = getLogFileName ls env.now ∧ h.closed = false := by
  rcases openCurrent_spec env ls d (getLogFileName ls env.now) with
    ⟨⟨h, hh, hn⟩, ho⟩ | ⟨hst, hof, ho⟩ | ⟨hst, f, d1, hof, ho⟩
  · simp only [rotateLogIfNeeded, ho] at hok ⊢
    rcases checkSize_spec env ls d (getLogFileName ls env.now) h hh with
      ⟨_, hc⟩ | ⟨_, hs, _, hc⟩ | ⟨_, _, _, _, hc⟩ | ⟨_, f, d2, _, _, ho2, hc⟩
    · simp [hc] at hok
    · simp only [hc]
      exact ⟨h, hh, hn, (statSize_some _ _ _ _ hs).1⟩
    · simp [hc] at hok
    · simp only [hc]
      obtain ⟨_, _, _, h4, h5, _⟩ := osOpenFile_data _ _ _ _ _ ho2
      exact ⟨f, rfl, h4, h5⟩
  · simp [rotateLogIfNeeded, ho] at hok
  · simp only [rotateLogIfNeeded, ho] at hok ⊢
    obtain ⟨_, _, _, g4, g5, _⟩ := osOpenFile_data _ _ _ _ _ hof
    rcases checkSize_spec env { ls with fileHandle := some f } d1 (getLogFileName ls env.now) f rfl with
      ⟨_, hc⟩ | ⟨_, hs, _, hc⟩ | ⟨_, _, _, _, hc⟩ | ⟨_, f2, d2, _, _, ho2, hc⟩
    · simp [hc] at hok
    · simp only [hc]
      exact ⟨f, rfl, g4, g5⟩
    · simp [hc] at hok
    · simp only [hc]
      obtain ⟨_, _, _, h4, h5, _⟩ := osOpenFile_data _ _ _ _ _ ho2
      exact ⟨f2, rfl, h4, h5⟩

theorem WriteLog_spec (env : Env) (ls : LogService) (d : Disk) (entry : LogEntry) :
    ((∃ f, (rotateLogIfNeeded env ls d).err = some f) ∧
      WriteLog env ls d entry = rotateLogIfNeeded env ls d)
    ∨ ((rotateLogIfNeeded env ls d).err = none ∧ jsonMarshal entry = none ∧
      WriteLog env ls d entry =
        { rotateLogIfNeeded env ls d with err := some Failure.marshalFailed })
    ∨ (∃ jsonData h, (rotateLogIfNeeded env ls d).err = none ∧
        jsonMarshal entry = some jsonData ∧
        (rotateLogIfNeeded env ls d).ls.fileHandle = some h ∧
        h.name = getLogFileName ls env.now ∧ h.closed = false ∧
        ((∃ k, env.written = some k ∧
            WriteLog env ls d entry =
              { ls := (rotateLogIfNeeded env ls d).ls,
                disk := { (rotateLogIfNeeded env ls d).disk with
                  data := upd (rotateLogIfNeeded env ls d).disk.data h.ino
                    ((rotateLogIfNeeded env ls d).disk.data h.ino
                      ++ (jsonData ++ [newline]).take k) },
                err := some Failure.writeFailed,
                trace := (rotateLogIfNeeded env ls d).trace
                  ++ [Event.write h.name h.ino (jsonData ++ [newline]) false] })
          ∨ (env.written = none ∧
            WriteLog env ls d entry =
              { ls := (rotateLogIfNeeded env ls d).ls,
                disk := { (rotateLogIfNeeded env ls d).disk with
                  data := upd (rotateLogIfNeeded env ls d).disk.data h.ino
                    ((rotateLogIfNeeded env ls d).disk.data h.ino ++ (jsonData ++ [newline])) },
                err := if env.syncErr then some Failure.syncFailed else none,
                trace := (rotateLogIfNeeded env ls d).trace
                  ++ [Event.write h.name h.ino (jsonData ++ [newline]) true,
                      Event.sync h.name (!env.syncErr)] }))) := by
  cases hr : (rotateLogIfNeeded env ls d).err with
  | some f => left; exact ⟨⟨f, rfl⟩, by simp [WriteLog, hr]⟩
  | none =>
    right
    cases hj : jsonMarshal entry with
    | none => left; exact ⟨rfl, rfl, by simp [WriteLog, hr, hj]⟩
    | some jsonData =>
      right
      obtain ⟨h, hh, hn, hc⟩ := rotate_ok env ls d hr
      refine ⟨jsonData, h, rfl, rfl, hh, hn, hc, ?_⟩
      cases hw : env.written with
      | some k =>
        left
        exact ⟨k, rfl, by simp [WriteLog, hr, hj, hh, File.writeString, hc, hw]⟩
      | none =>
        right
        refine ⟨rfl, ?_⟩
        cases hs : env.syncErr <;> simp [WriteLog, hr, hj, hh, File.writeString, hc, hw, hs]

theorem exceedsMaxSize_iff (ls : LogService) (size : Int) :
    exceedsMaxSize ls size = true ↔
      (0 < ls.config.MaxLogSize ∧ wrapInt64 (ls.config.MaxLogSize * 1048576) < size) := by
  simp [exceedsMaxSize, wrapInt64_mul_mul]

theorem sizeRotated_append (a b : List Event) :
    sizeRotated (a ++ b) = (sizeRotated a || sizeRotated b) := by
  simp [sizeRotated]

theorem sizeRotated_closeEvents (ls : LogService) : sizeRotated (closeEvents ls) = false := by
  cases h : ls.fileHandle <;> simp [closeEvents, h, sizeRotated]

theorem sizeRotated_openFile (name : String) (ok : Bool) :
    sizeRotated [Event.openFile name ok] = false := rfl

theorem openCurrent_held (env : Env) (ls : LogService) (d : Disk) (h : File)
    (hh : ls.fileHandle = some h) (hn : h.name = getLogFileName ls env.now) :
    openCurrent env ls d (getLogFileName ls env.now) =
      { ls := ls, disk := d, err := none, trace := [] } := by
  simp [openCurrent, hh, hn]

theorem checkSize_sizeRotated (env : Env) (ls : LogService) (d : Disk) (cur : String) (h : File)
    (hh : ls.fileHandle = some h) :
    (∀ s, h.statSize env.statErr d = some s →
      (sizeRotated (checkSize env ls d cur).trace = true ↔ exceedsMaxSize ls s = true)) ∧
    (h.statSize env.statErr d = none → sizeRotated (checkSize env ls d cur).trace = false) := by
  rcases checkSize_spec env ls d cur h hh with
    ⟨hs, hc⟩ | ⟨s, hs, hx, hc⟩ | ⟨s, hs, hx, _, hc⟩ | ⟨s, _, _, hs, hx, _, hc⟩
  · simp [hc, hs, sizeRotated]
  · simp [hc, hs, hx, sizeRotated]
  · simp [hc, hs, hx, sizeRotated]
  · simp [hc, hs, hx, sizeRotated]

theorem str_append_left_cancel (a b c : String) (h : a ++ b = a ++ c) : b = c := by
  have h1 := congrArg String.data h
  simp only [String.data_append] at h1
  exact String.ext (List.append_cancel_left h1)

theorem archiveName_ne (ls : LogService) (t1 t2 : Time) :
    archiveName ls t1 t2 ≠ getLogFileName ls t1 := by
  intro h
  unfold getLogFileName archiveName filepathJoin at h
  have h1 := str_append_left_cancel _ _ _ h
  rw [String.append_assoc, String.append_assoc, String.append_assoc] at h1
  have h2 := str_append_left_cancel _ _ _ h1
  have h3 := str_append_left_cancel _ _ _ h2
  have h4 := congrArg String.data h3
  simp only [String.data_append] at h4
  have h5 := congrArg List.head? h4
  simp at h5

/-- The size branch of `rotateLogIfNeeded` is taken exactly when the size test
is reached and holds. -/
theorem rotate_sizeRotated (env : Env) (ls : LogService) (d : Disk) :
    (∀ s, observedSize env ls d = some s →
      (sizeRotated (rotateLogIfNeeded env ls d).trace = true ↔ exceedsMaxSize ls s = true))
    ∧ (observedSize env ls d = none →
      sizeRotated (rotateLogIfNeeded env ls d).trace = false) := by
  rcases openCurrent_spec env ls d (getLogFileName ls env.now) with
    ⟨⟨h, hh, hn⟩, ho⟩ | ⟨hst, hof, ho⟩ | ⟨hst, f, d1, hof, ho⟩
  · have := checkSize_sizeRotated env ls d (getLogFileName ls env.now) h hh
    simpa [observedSize, rotateLogIfNeeded, ho, hh] using this
  · simp [observedSize, rotateLogIfNeeded, ho, sizeRotated_append, sizeRotated_closeEvents,
      sizeRotated_openFile]
  · have := checkSize_sizeRotated env { ls with fileHandle := some f } d1
      (getLogFileName ls env.now) f rfl
    simpa [observedSize, rotateLogIfNeeded, ho, sizeRotated_append, sizeRotated_closeEvents,
      sizeRotated_openFile] using this

theorem sizeRotated_write_sync (t : List Event) (n : String) (i : Nat) (b : GoString)
    (ok ok2 : Bool) :
    sizeRotated (t ++ [Event.write n i b ok, Event.sync n ok2]) = sizeRotated t := by
  simp [sizeRotated]

/-- The size branch on a disk that holds a file at today's name: the file is
moved to the archive name and a new, empty file is created at today's name. -/
theorem checkSize_effect (env : Env) (ls : LogService) (d : Disk) (cur : String) (h : File)
    (i0 : Nat) (hh : ls.fileHandle = some h)
    (hfile : d.dir cur = some i0)
    (hne : archiveName ls env.nowDate env.nowStamp ≠ cur)
    (hren : env.renameErr = false)
    (hrot : sizeRotated (checkSize env ls d cur).trace = true)
    (hok : (checkSize env ls d cur).err = none) :
    (checkSize env ls d cur).ls.fileHandle = some { name := cur, ino := d.next, closed := false } ∧
    (checkSize env ls d cur).disk.dir (archiveName ls env.nowDate env.nowStamp) = some i0 ∧
    (checkSize env ls d cur).disk.dir cur = some d.next ∧
    (checkSize env ls d cur).disk.data = upd d.data d.next [] := by
  have hne' : cur ≠ archiveName ls env.nowDate env.nowStamp := fun e => hne e.symm
  have hren2 : osRename env.renameErr cur (archiveName ls env.nowDate env.nowStamp) d
      = (true, { dir := upd (upd d.dir (archiveName ls env.nowDate env.nowStamp) (some i0))
                          cur none,
                 data := d.data, next := d.next }) := by
    simp [osRename, hren, hfile, hne']
  rcases checkSize_spec env ls d cur h hh with
    ⟨_, hc⟩ | ⟨_, _, _, hc⟩ | ⟨_, _, _, _, hc⟩ | ⟨_, f, d2, _, _, ho, hc⟩
  · rw [hc] at hok; simp at hok
  · rw [hc] at hrot; simp [sizeRotated] at hrot
  · rw [hc] at hok; simp at hok
  · rw [hc]
    rw [hren2] at ho
    simp only [osOpenFile] at ho
    split at ho
    · simp at ho
    · simp only [upd, if_true] at ho
      simp only [Option.some.injEq, Prod.mk.injEq] at ho
      obtain ⟨rfl, rfl⟩ := ho
      simp [upd, hne]





theorem rotate_effect (env : Env) (ls : LogService) (d : Disk) (i0 : Nat)
    (hfile : d.dir (getLogFileName ls env.now) = some i0)
    (hne : archiveName ls env.nowDate env.nowStamp ≠ getLogFileName ls env.now)
    (hren : env.renameErr = false)
    (hrot : sizeRotated (rotateLogIfNeeded env ls d).trace = true)
    (hok : (rotateLogIfNeeded env ls d).err = none) :
    (rotateLogIfNeeded env ls d).ls.fileHandle
      = some { name := getLogFileName ls env.now, ino := d.next, closed := false } ∧
    (rotateLogIfNeeded env ls d).disk.dir (archiveName ls env.nowDate env.nowStamp) = some i0 ∧
    (rotateLogIfNeeded env ls d).disk.dir (getLogFileName ls env.now) = some d.next ∧
    (rotateLogIfNeeded env ls d).disk.data = upd d.data d.next [] := by
  rcases openCurrent_spec env ls d (getLogFileName ls env.now) with
    ⟨⟨h, hh, hn⟩, ho⟩ | ⟨hst, hof, ho⟩ | ⟨hst, f, d1, hof, ho⟩
  · simp only [rotateLogIfNeeded, ho] at hok hrot ⊢
    simp only [List.nil_append] at hrot
    exact checkSize_effect env ls d _ h i0 hh hfile hne hren hrot hok
  · simp [rotateLogIfNeeded, ho] at hok
  · simp only [rotateLogIfNeeded, ho] at hok hrot ⊢
    obtain ⟨_, _, _, _, _, _, _, _, h9⟩ := osOpenFile_data _ _ _ _ _ hof
    obtain ⟨_, rfl⟩ := h9 i0 hfile
    simp only [sizeRotated_append, sizeRotated_closeEvents, sizeRotated_openFile,
      Bool.false_or] at hrot
    exact checkSize_effect env { ls with fileHandle := some f } d1 _ f i0 rfl hfile hne hren
      hrot hok

theorem osOpenFile_ok (name : String) (d : Disk) : ∃ f d1, osOpenFile false name d = some (f, d1) := by
  unfold osOpenFile
  cases h : d.dir name <;> simp

/-- When no system call fails and the held handle, if named for today, is
open, the rotation check succeeds. -/
theorem rotate_succeeds (env : Env) (ls : LogService) (d : Disk)
    (h1 : env.openErr = false) (h2 : env.statErr = false) (h3 : env.reopenErr = false)
    (h4 : ∀ h, ls.fileHandle = some h → h.name = getLogFileName ls env.now → h.closed = false) :
    (rotateLogIfNeeded env ls d).err = none := by
  rcases openCurrent_spec env ls d (getLogFileName ls env.now) with
    ⟨⟨h, hh, hn⟩, ho⟩ | ⟨hst, hof, ho⟩ | ⟨hst, f, d1, hof, ho⟩
  · simp only [rotateLogIfNeeded, ho]
    rcases checkSize_spec env ls d (getLogFileName ls env.now) h hh with
      ⟨hs, hc⟩ | ⟨_, _, _, hc⟩ | ⟨_, _, _, ho2, hc⟩ | ⟨_, _, _, _, _, _, hc⟩
    · simp [File.statSize, h4 h hh hn, h2] at hs
    · simp [hc]
    · rw [h3] at ho2
      obtain ⟨f, d1, hf⟩ := osOpenFile_ok (getLogFileName ls env.now)
        (osRename env.renameErr (getLogFileName ls env.now)
          (archiveName ls env.nowDate env.nowStamp) d).2
      rw [hf] at ho2; simp at ho2
    · simp [hc]
  · rw [h1] at hof
    obtain ⟨f, d1, hf⟩ := osOpenFile_ok (getLogFileName ls env.now) d
    rw [hf] at hof; simp at hof
  · simp only [rotateLogIfNeeded, ho]
    obtain ⟨_, _, _, _, g5, _⟩ := osOpenFile_data _ _ _ _ _ hof
    rcases checkSize_spec env { ls with fileHandle := some f } d1 (getLogFileName ls env.now) f rfl with
      ⟨hs, hc⟩ | ⟨_, _, _, hc⟩ | ⟨_, _, _, ho2, hc⟩ | ⟨_, _, _, _, _, _, hc⟩
    · simp [File.statSize, g5, h2] at hs
    · simp [hc]
    · rw [h3] at ho2
      obtain ⟨f', d1', hf⟩ := osOpenFile_ok (getLogFileName ls env.now)
        (osRename env.renameErr (getLogFileName ls env.now)
          (archiveName { ls with fileHandle := some f } env.nowDate env.nowStamp) d1).2
      rw [hf] at ho2; simp at ho2
    · simp [hc]

/-- When no system call fails, the held handle, if named for today, is open,
and the entry can be serialized, `WriteLog` returns without error. -/
theorem WriteLog_succeeds (env : Env) (ls : LogService) (d : Disk) (entry : LogEntry)
    (h1 : env.openErr = false) (h2 : env.statErr = false) (h3 : env.reopenErr = false)
    (h4 : ∀ h, ls.fileHandle = some h → h.name = getLogFileName ls env.now → h.closed = false)
    (h5 : env.written = none) (h6 : env.syncErr = false)
    (h7 : (jsonMarshal entry).isSome = true) :
    (WriteLog env ls d entry).err = none := by
  have hr := rotate_succeeds env ls d h1 h2 h3 h4
  rcases WriteLog_spec env ls d entry with
    ⟨⟨f, hf⟩, hw⟩ | ⟨_, hj, hw⟩ | ⟨jsonData, h', _, hj, hh', hn, hcl, ⟨k, hk, hw⟩ | ⟨_, hw⟩⟩
  · rw [hr] at hf; simp at hf
  · rw [hj] at h7; simp at h7
  · rw [h5] at hk; simp at hk
  · rw [hw]; simp [h6]

theorem WriteLog_sizeRotated (env : Env) (ls : LogService) (d : Disk) (entry : LogEntry) :
    sizeRotated (WriteLog env ls d entry).trace
      = sizeRotated (rotateLogIfNeeded env ls d).trace := by
  rcases WriteLog_spec env ls d entry with
    ⟨_, hw⟩ | ⟨_, _, hw⟩ | ⟨jsonData, h', _, hj, hh', hn, hcl, ⟨k, hk, hw⟩ | ⟨_, hw⟩⟩ <;>
    rw [hw] <;> simp [sizeRotated]

theorem osOpenFile_fails (name : String) (d : Disk) : osOpenFile true name d = none := by
  simp [osOpenFile]

/-- The size branch when the reopen fails: the error is returned and no file
is left at today's name. -/
theorem checkSize_reopen_fails (env : Env) (ls : LogService) (d : Disk) (cur : String) (h : File)
    (i0 : Nat) (hh : ls.fileHandle = some h)
    (hfile : d.dir cur = some i0)
    (hne : archiveName ls env.nowDate env.nowStamp ≠ cur)
    (hren : env.renameErr = false) (hre : env.reopenErr = true)
    (hrot : sizeRotated (checkSize env ls d cur).trace = true) :
    (checkSize env ls d cur).err = some Failure.reopenFailed ∧
    (checkSize env ls d cur).disk.dir cur = none := by
  have hne' : cur ≠ archiveName ls env.nowDate env.nowStamp := fun e => hne e.symm
  have hren2 : osRename env.renameErr cur (archiveName ls env.nowDate env.nowStamp) d
      = (true, { dir := upd (upd d.dir (archiveName ls env.nowDate env.nowStamp) (some i0))
                          cur none,
                 data := d.data, next := d.next }) := by
    simp [osRename, hren, hfile, hne']
  rcases checkSize_spec env ls d cur h hh with
    ⟨_, hc⟩ | ⟨_, _, _, hc⟩ | ⟨_, _, _, _, hc⟩ | ⟨_, f, d2, _, _, ho, hc⟩
  · rw [hc] at hrot; simp [sizeRotated] at hrot
  · rw [hc] at hrot; simp [sizeRotated] at hrot
  · rw [hc, hren2]
    simp [upd]
  · rw [hre, osOpenFile_fails] at ho
    simp at ho

/-- The size branch when the rename fails: the handle is opened again on the
file that was to be archived. -/
theorem checkSize_rename_fails (env : Env) (ls : LogService) (d : Disk) (cur : String) (h : File)
    (i0 : Nat) (hh : ls.fileHandle = some h)
    (hfile : d.dir cur = some i0)
    (hren : env.renameErr = true)
    (hrot : sizeRotated (checkSize env ls d cur).trace = true)
    (hok : (checkSize env ls d cur).err = none) :
    (checkSize env ls d cur).ls.fileHandle = some { name := cur, ino := i0, closed := false } ∧
    (checkSize env ls d cur).disk = d := by
  have hren2 : osRename env.renameErr cur (archiveName ls env.nowDate env.nowStamp) d
      = (false, d) := by
    simp [osRename, hren]
  rcases checkSize_spec env ls d cur h hh with
    ⟨_, hc⟩ | ⟨_, _, _, hc⟩ | ⟨_, _, _, _, hc⟩ | ⟨_, f, d2, _, _, ho, hc⟩
  · rw [hc] at hok; simp at hok
  · rw [hc] at hrot; simp [sizeRotated] at hrot
  · rw [hc] at hok; simp at hok
  · rw [hc]
    rw [hren2] at ho
    obtain ⟨_, _, _, g4, g5, _, _, _, g9⟩ := osOpenFile_data _ _ _ _ _ ho
    obtain ⟨g6, g7⟩ := g9 i0 hfile
    obtain ⟨fn, fi, fc⟩ := f
    simp only at g4 g5 g6
    subst g4 g5 g6
    exact ⟨rfl, g7⟩

theorem sample_exceeds (n : Nat) (hn : 1048576 < n) :
    exceedsMaxSize sampleService (n : Int) = true := by
  rw [exceedsMaxSize_iff]
  refine ⟨by decide, ?_⟩
  have : wrapInt64 (sampleService.config.MaxLogSize * 1048576) = 1048576 := by decide
  rw [this]
  exact_mod_cast hn

theorem sample_rotates (env : Env) (entry : LogEntry) (n : Nat) (hsize : 1048576 < n)
    (hs : env.statErr = false) (hn : env.now = sampleTime) :
    sizeRotated (WriteLog env sampleService (filledDisk n) entry).trace = true := by
  rw [WriteLog_sizeRotated]
  have h1 : sampleFile.name = getLogFileName sampleService env.now := by rw [hn]; decide
  have h2 := openCurrent_held env sampleService (filledDisk n) sampleFile rfl h1
  have hobs : observedSize env sampleService (filledDisk n) = some (n : Int) := by
    simp only [observedSize, h2]
    simp [sampleService, sampleFile, File.statSize, hs, filledDisk]
  exact ((rotate_sizeRotated env sampleService (filledDisk n)).1 _ hobs).2
    (sample_exceeds n hsize)

theorem rotate_held (env : Env) (ls : LogService) (d : Disk) (h : File)
    (hh : ls.fileHandle = some h) (hn : h.name = getLogFileName ls env.now) :
    rotateLogIfNeeded env ls d = checkSize env ls d (getLogFileName ls env.now) := by
  simp [rotateLogIfNeeded, openCurrent_held env ls d h hh hn]

/-- A call on which size rotation triggers and the reopen fails returns the
error and leaves no file at today's name. -/
theorem WriteLog_reopen_fails (env : Env) (ls : LogService) (d : Disk) (entry : LogEntry)
    (h : File) (i0 : Nat) (hh : ls.fileHandle = some h)
    (hn : h.name = getLogFileName ls env.now)
    (hfile : d.dir (getLogFileName ls env.now) = some i0)
    (hne : archiveName ls env.nowDate env.nowStamp ≠ getLogFileName ls env.now)
    (hren : env.renameErr = false) (hre : env.reopenErr = true)
    (hrot : sizeRotated (WriteLog env ls d entry).trace = true) :
    (WriteLog env ls d entry).err = some Failure.reopenFailed ∧
    (WriteLog env ls d entry).disk.dir (getLogFileName ls env.now) = none := by
  rw [WriteLog_sizeRotated, rotate_held env ls d h hh hn] at hrot
  have hc := checkSize_reopen_fails env ls d _ h i0 hh hfile hne hren hre hrot
  rw [← rotate_held env ls d h hh hn] at hc
  rcases WriteLog_spec env ls d entry with
    ⟨_, hw⟩ | ⟨hr, _, _⟩ | ⟨_, _, hr, _⟩
  · rw [hw]; exact hc
  · rw [hc.1] at hr; simp at hr
  · rw [hc.1] at hr; simp at hr

/-- A successful call on which size rotation triggers and the rename fails
adds the line of the entry to the file that was to be archived. -/
theorem WriteLog_rename_fails (env : Env) (ls : LogService) (d : Disk) (entry : LogEntry)
    (h : File) (i0 : Nat) (hh : ls.fileHandle = some h)
    (hn : h.name = getLogFileName ls env.now)
    (hfile : d.dir (getLogFileName ls env.now) = some i0)
    (hren : env.renameErr = true)
    (hrot : sizeRotated (WriteLog env ls d entry).trace = true)
    (hok : (WriteLog env ls d entry).err = none) :
    (WriteLog env ls d entry).disk.dir = d.dir ∧
    (WriteLog env ls d entry).disk.data i0 = d.data i0 ++ lineOf entry := by
  rw [WriteLog_sizeRotated, rotate_held env ls d h hh hn] at hrot
  rcases WriteLog_spec env ls d entry with
    ⟨⟨f, hf⟩, hw⟩ | ⟨_, _, hw⟩ | ⟨jsonData, h', hr, hj, hh', hn', hcl, ⟨k, _, hw⟩ | ⟨_, hw⟩⟩
  · rw [hw, hf] at hok; simp at hok
  · rw [hw] at hok; simp at hok
  · rw [hw] at hok; simp at hok
  · rw [hw]
    rw [rotate_held env ls d h hh hn] at hr hh' ⊢
    obtain ⟨e1, e2⟩ := checkSize_rename_fails env ls d _ h i0 hh hfile hren hrot hr
    rw [e1] at hh'
    simp only [Option.some.injEq] at hh'
    subst hh'
    simp [e2, upd, lineOf, hj]

/-- After a failed reopen the service holds a closed handle named for today. -/
theorem rotate_reopenFailed (env : Env) (ls : LogService) (d : Disk)
    (herr : (rotateLogIfNeeded env ls d).err = some Failure.reopenFailed) :
    ∃ h, (rotateLogIfNeeded env ls d).ls.fileHandle = some h ∧ h.closed = true ∧
      h.name = getLogFileName ls env.now := by
  rcases openCurrent_spec env ls d (getLogFileName ls env.now) with
    ⟨⟨h, hh, hn⟩, ho⟩ | ⟨hst, hof, ho⟩ | ⟨hst, f, d1, hof, ho⟩
  · simp only [rotateLogIfNeeded, ho] at herr ⊢
    rcases checkSize_spec env ls d (getLogFileName ls env.now) h hh with
      ⟨_, hc⟩ | ⟨_, _, _, hc⟩ | ⟨_, _, _, _, hc⟩ | ⟨_, _, _, _, _, _, hc⟩
    · simp [hc] at herr
    · simp [hc] at herr
    · simp only [hc]
      exact ⟨h.close, rfl, rfl, hn⟩
    · simp [hc] at herr
  · simp [rotateLogIfNeeded, ho] at herr
  · simp only [rotateLogIfNeeded, ho] at herr ⊢
    obtain ⟨_, _, _, g4, _⟩ := osOpenFile_data _ _ _ _ _ hof
    rcases checkSize_spec env { ls with fileHandle := some f } d1 (getLogFileName ls env.now) f rfl with
      ⟨_, hc⟩ | ⟨_, _, _, hc⟩ | ⟨_, _, _, _, hc⟩ | ⟨_, _, _, _, _, _, hc⟩
    · simp [hc] at herr
    · simp [hc] at herr
    · simp only [hc]
      exact ⟨f.close, rfl, rfl, g4⟩
    · simp [hc] at herr

/-- On a closed handle named for today the rotation check does not reopen: it
fails at the size inspection and leaves everything as it was. -/
theorem rotate_closed (env : Env) (ls : LogService) (d : Disk) (h : File)
    (hh : ls.fileHandle = some h) (hc : h.closed = true)
    (hn : h.name = getLogFileName ls env.now) :
    rotateLogIfNeeded env ls d =
      { ls := ls, disk := d, err := some Failure.statFailed,
        trace := [Event.stat h.name false] } := by
  rw [rotate_held env ls d h hh hn]
  simp [checkSize, hh, File.statSize, hc]

theorem WriteLog_closed (env : Env) (ls : LogService) (d : Disk) (entry : LogEntry) (h : File)
    (hh : ls.fileHandle = some h) (hc : h.closed = true)
    (hn : h.name = getLogFileName ls env.now) :
    WriteLog env ls d entry =
      { ls := ls, disk := d, err := some Failure.statFailed,
        trace := [Event.stat h.name false] } := by
  simp [WriteLog, rotate_closed env ls d h hh hc hn]

theorem writeAll_closed (calls : List (Env × LogEntry)) (ls : LogService) (d : Disk) (h : File)
    (hh : ls.fileHandle = some h) (hc : h.closed = true)
    (hday : ∀ c ∈ calls, h.name = getLogFileName ls c.1.now) :
    ∀ o ∈ writeAll ls d calls,
      o = { ls := ls, disk := d, err := some Failure.statFailed,
            trace := [Event.stat h.name false] } := by
  induction calls with
  | nil => intro o ho; simp [writeAll] at ho
  | cons c rest ih =>
    intro o ho
    have hw := WriteLog_closed c.1 ls d c.2 h hh hc (hday c (by simp))
    simp only [writeAll, List.mem_cons] at ho
    rcases ho with rfl | ho
    · exact hw
    · rw [hw] at ho
      exact ih (fun c' hc' => hday c' (by simp [hc'])) o ho

/-- After a failed open of the day check the handle held is absent or has
another name than today's. -/
theorem rotate_openFailed (env : Env) (ls : LogService) (d : Disk)
    (herr : (rotateLogIfNeeded env ls d).err = some Failure.openFailed) :
    Stale (rotateLogIfNeeded env ls d).ls (getLogFileName ls env.now) ∧
    (rotateLogIfNeeded env ls d).disk = d := by
  rcases openCurrent_spec env ls d (getLogFileName ls env.now) with
    ⟨⟨h, hh, hn⟩, ho⟩ | ⟨hst, hof, ho⟩ | ⟨hst, f, d1, hof, ho⟩
  · simp only [rotateLogIfNeeded, ho] at herr
    rcases checkSize_spec env ls d (getLogFileName ls env.now) h hh with
      ⟨_, hc⟩ | ⟨_, _, _, hc⟩ | ⟨_, _, _, _, hc⟩ | ⟨_, _, _, _, _, _, hc⟩ <;>
      simp [hc] at herr
  · simp only [rotateLogIfNeeded, ho]
    refine ⟨?_, trivial⟩
    intro h' hh'
    cases hfh : ls.fileHandle with
    | none => simp [hfh] at hh'
    | some h0 =>
      simp [hfh] at hh'
      subst hh'
      exact hst h0 hfh
  · simp only [rotateLogIfNeeded, ho] at herr
    rcases checkSize_spec env { ls with fileHandle := some f } d1 (getLogFileName ls env.now) f rfl with
      ⟨_, hc⟩ | ⟨_, _, _, hc⟩ | ⟨_, _, _, _, hc⟩ | ⟨_, _, _, _, _, _, hc⟩ <;>
      simp [hc] at herr

/-- On a stale handle the rotation check makes the open of today's file, which
succeeds exactly when the file system accepts it. -/
theorem rotate_stale_attempts (env : Env) (ls : LogService) (d : Disk)
    (hst : Stale ls (getLogFileName ls env.now)) :
    Event.openFile (getLogFileName ls env.now) (!env.openErr)
      ∈ (rotateLogIfNeeded env ls d).trace := by
  rcases openCurrent_spec env ls d (getLogFileName ls env.now) with
    ⟨⟨h, hh, hn⟩, ho⟩ | ⟨_, hof, ho⟩ | ⟨_, f, d1, hof, ho⟩
  · exact absurd hn (hst h hh)
  · have he : env.openErr = true := by
      cases hb : env.openErr with
      | true => rfl
      | false =>
        rw [hb] at hof
        obtain ⟨f, d1, hf⟩ := osOpenFile_ok (getLogFileName ls env.now) d
        rw [hf] at hof; simp at hof
    simp [rotateLogIfNeeded, ho, he]
  · have he : env.openErr = false := by
      cases hb : env.openErr with
      | false => rfl
      | true => rw [hb, osOpenFile_fails] at hof; simp at hof
    simp [rotateLogIfNeeded, ho, he]

theorem getLogFileName_of_date (ls ls1 : LogService) (t t1 : Time)
    (hc : ls1.config = ls.config) (hd : formatDate t1 = formatDate t) :
    getLogFileName ls1 t1 = getLogFileName ls t := by
  simp [getLogFileName, hc, hd]

theorem filledDisk_dir (n : Nat) : (filledDisk n).dir = sampleDisk.dir := rfl

theorem sample_reopen_fails (n : Nat) (hn : 1048576 < n) :
    (rotateLogIfNeeded envReopenFails sampleService (filledDisk n)).err
      = some Failure.reopenFailed := by
  have h1 : sampleFile.name = getLogFileName sampleService envReopenFails.now := by decide
  have hrot := sample_rotates envReopenFails sampleEntry n hn rfl rfl
  rw [WriteLog_sizeRotated, rotate_held _ _ _ sampleFile rfl h1] at hrot
  rw [rotate_held _ _ _ sampleFile rfl h1]
  have hfile : (filledDisk n).dir (getLogFileName sampleService envReopenFails.now) = some 0 := by
    rw [filledDisk_dir]; decide
  exact (checkSize_reopen_fails envReopenFails sampleService (filledDisk n) _ sampleFile 0 rfl
    hfile (by decide) rfl rfl hrot).1

/-! ## Lemmas on the retention sweep -/

theorem extLoop_length (l acc : List Char) :
    extLoop l acc = "" ∨ acc.length + 1 ≤ (extLoop l acc).data.length := by
  induction l generalizing acc with
  | nil => left; rfl
  | cons c rest ih =>
    rw [extLoop]
    split
    · left; rfl
    · split
      · right; simp
      · rcases ih (c :: acc) with h | h
        · left; exact h
        · right
          simp only [List.length_cons] at h
          omega

theorem extLoop_eq_log (l : List Char) :
    extLoop l [] = ".log" ↔ ∃ t, l = 'g' :: 'o' :: 'l' :: '.' :: t := by
  have hne : ∀ s : String, s = ".log" → s ≠ "" ∧ s.data.length = 4 := by
    intro s hs; subst hs; exact ⟨by decide, by decide⟩
  constructor
  · intro h
    rcases l with _ | ⟨c1, _ | ⟨c2, _ | ⟨c3, _ | ⟨c4, t⟩⟩⟩⟩
    · simp [extLoop] at h
    · simp only [extLoop] at h
      split_ifs at h <;> simp_all
    · simp only [extLoop] at h
      split_ifs at h <;> first
        | (exact absurd h (by decide))
        | exact absurd (hne _ h).2 (by simp)
    · simp only [extLoop] at h
      split_ifs at h <;> first
        | (exact absurd h (by decide))
        | exact absurd (hne _ h).2 (by simp)
    · simp only [extLoop] at h
      split_ifs at h with h1 h2 h3 h4 h5 h6 h7 h8
      · exact absurd h (by decide)
      · have := (hne _ h).2; simp at this
      · exact absurd h (by decide)
      · have := (hne _ h).2; simp at this
      · exact absurd h (by decide)
      · have := (hne _ h).2; simp at this
      · exact absurd h (by decide)
      · have hd := congrArg String.data h
        simp at hd
        exact ⟨t, by simp_all⟩
      · rcases extLoop_length t [c4, c3, c2, c1] with h0 | h0
        · rw [h0] at h; exact absurd h (by decide)
        · have := (hne _ h).2
          simp only [List.length_cons, List.length_nil] at h0
          omega
  · rintro ⟨t, rfl⟩
    simp [extLoop]

theorem filepathExt_log (name : String) :
    filepathExt name = ".log" ↔ endsInLog name = true := by
  unfold filepathExt endsInLog
  rw [extLoop_eq_log, List.isSuffixOf_iff_suffix]
  constructor
  · rintro ⟨t, ht⟩
    refine ⟨t.reverse, ?_⟩
    have := congrArg List.reverse ht
    simp only [List.reverse_reverse] at this
    rw [this]
    simp
  · rintro ⟨t, ht⟩
    refine ⟨t.reverse, ?_⟩
    rw [← ht]
    simp

theorem Deletes_congr (logDir : String) (cutoffTime : Int) (fs fs1 : Files) (e : DirEntry)
    (p : String) (h : fs1 p = fs p) :
    Deletes logDir cutoffTime fs1 e p ↔ Deletes logDir cutoffTime fs e p := by
  simp [Deletes, h]

/-- The loop of `removeOldFiles`, path by path: a path is emptied when some
entry of the listing deletes it, and keeps its file otherwise. -/
theorem sweep_spec (logDir : String) (cutoffTime : Int) (listing : List DirEntry) :
    ∀ (fs : Files) (p : String),
      ((∃ e ∈ listing, Deletes logDir cutoffTime fs e p) →
        sweep logDir cutoffTime listing fs p = none) ∧
      ((¬ ∃ e ∈ listing, Deletes logDir cutoffTime fs e p) →
        sweep logDir cutoffTime listing fs p = fs p) := by
  induction listing with
  | nil => intro fs p; simp [sweep]
  | cons file rest ih =>
    intro fs p
    have skip : (∀ q, ¬ Deletes logDir cutoffTime fs file q) →
        sweep logDir cutoffTime (file :: rest) fs = sweep logDir cutoffTime rest fs →
        ((∃ e ∈ file :: rest, Deletes logDir cutoffTime fs e p) →
          sweep logDir cutoffTime (file :: rest) fs p = none) ∧
        ((¬ ∃ e ∈ file :: rest, Deletes logDir cutoffTime fs e p) →
          sweep logDir cutoffTime (file :: rest) fs p = fs p) := by
      intro hnd heq
      rw [heq]
      have hiff : (∃ e ∈ file :: rest, Deletes logDir cutoffTime fs e p) ↔
          (∃ e ∈ rest, Deletes logDir cutoffTime fs e p) := by
        constructor
        · rintro ⟨e, he, hd⟩
          simp only [List.mem_cons] at he
          rcases he with rfl | he
          · exact absurd hd (hnd p)
          · exact ⟨e, he, hd⟩
        · rintro ⟨e, he, hd⟩
          exact ⟨e, by simp [he], hd⟩
      rw [hiff]
      exact ih fs p
    by_cases hdir : file.isDir = true
    · apply skip
      · intro q hq; simp [Deletes, hdir] at hq
      · simp [sweep, hdir]
    · simp only [Bool.not_eq_true] at hdir
      by_cases hext : filepathExt file.name = ".log"
      · cases hst : osStat fs (filepathJoin logDir file.name) with
        | none =>
          apply skip
          · intro q hq
            obtain ⟨_, _, hj, m, hm, hsf, _⟩ := hq
            subst hj
            simp [osStat, hm, hsf] at hst
          · simp [sweep, hdir, hext, hst]
        | some modTime =>
          by_cases hold : modTime < cutoffTime
          · cases hrm : osRemove fs (filepathJoin logDir file.name) with
            | none =>
              apply skip
              · intro q hq
                obtain ⟨_, _, hj, m, hm, _, _, hrf⟩ := hq
                subst hj
                simp [osRemove, hm, hrf] at hrm
              · simp [sweep, hdir, hext, hst, hold, hrm]
            | some fs1 =>
              have heq : sweep logDir cutoffTime (file :: rest) fs
                  = sweep logDir cutoffTime rest fs1 := by
                simp [sweep, hdir, hext, hst, hold, hrm]
              rw [heq]
              have hfs1 : fs1 = upd fs (filepathJoin logDir file.name) none ∧
                  Deletes logDir cutoffTime fs file (filepathJoin logDir file.name) := by
                unfold osRemove at hrm
                unfold osStat at hst
                cases hm : fs (filepathJoin logDir file.name) with
                | none => simp [hm] at hrm
                | some m =>
                  simp only [hm] at hrm hst
                  split at hrm
                  · simp at hrm
                  · rename_i hrf
                    split at hst
                    · simp at hst
                    · rename_i hsf
                      simp only [Option.some.injEq] at hrm hst
                      subst hst
                      refine ⟨hrm.symm, hdir, hext, rfl, m, hm, ?_, hold, ?_⟩
                      · simpa using hsf
                      · simpa using hrf
              obtain ⟨hfs1, hdel⟩ := hfs1
              by_cases hp : p = filepathJoin logDir file.name
              · subst hp
                have hnone : fs1 (filepathJoin logDir file.name) = none := by
                  simp [hfs1, upd]
                have hno : ¬ ∃ e ∈ rest,
                    Deletes logDir cutoffTime fs1 e (filepathJoin logDir file.name) := by
                  rintro ⟨e, _, _, _, _, m, hm, _⟩
                  rw [hnone] at hm
                  simp at hm
                constructor
                · intro _
                  rw [(ih fs1 _).2 hno, hnone]
                · intro hcontra
                  exact absurd ⟨file, by simp, hdel⟩ hcontra
              · have hsame : fs1 p = fs p := by simp [hfs1, upd, hp]
                have hiff : (∃ e ∈ file :: rest, Deletes logDir cutoffTime fs e p) ↔
                    (∃ e ∈ rest, Deletes logDir cutoffTime fs1 e p) := by
                  constructor
                  · rintro ⟨e, he, hd⟩
                    simp only [List.mem_cons] at he
                    rcases he with rfl | he
                    · exact absurd hd.2.2.1.symm hp
                    · exact ⟨e, he, (Deletes_congr _ _ _ _ _ _ hsame).mpr hd⟩
                  · rintro ⟨e, he, hd⟩
                    exact ⟨e, by simp [he], (Deletes_congr _ _ _ _ _ _ hsame).mp hd⟩
                rw [hiff, ← hsame]
                exact ih fs1 p
          · apply skip
            · intro q hq
              obtain ⟨_, _, hj, m, hm, hsf, hlt, _⟩ := hq
              subst hj
              simp [osStat, hm, hsf] at hst
              rw [hst] at hlt
              exact hold hlt
            · simp [sweep, hdir, hext, hst, hold]
      · apply skip
        · intro q hq; exact hext hq.2.1
        · simp [sweep, hdir, hext]

/-! ## Lemmas on base64 -/

theorem decodeMap_encodeStdChar_fin : ∀ n : Fin 64, decodeMap (encodeStdChar n.val) = some n.val := by
  decide

theorem decodeMap_encodeStdChar (n : Nat) (h : n < 64) : decodeMap (encodeStdChar n) = some n :=
  decodeMap_encodeStdChar_fin ⟨n, h⟩

theorem decodeMap_padChar : decodeMap padChar = none := by decide

theorem isLineBreak_padChar : isLineBreak padChar = false := by decide

theorem fin_ofNat_val (b : Byte) (x : Nat) (h : x % 256 = b.val) : (Fin.ofNat x : Byte) = b := by
  apply Fin.ext
  simp [Fin.ofNat, h]

theorem quantumBytes_three (b0 b1 b2 : Byte) :
    quantumBytes [b0.val / 4, b0.val % 4 * 16 + b1.val / 16, b1.val % 16 * 4 + b2.val / 64,
      b2.val % 64] = [b0, b1, b2] := by
  have h0 := b0.isLt
  have h1 := b1.isLt
  have h2 := b2.isLt
  simp only [quantumBytes, List.getD_cons_zero, List.getD_cons_succ, List.length_cons,
    List.length_nil]
  simp only [List.cons.injEq, and_true]
  refine ⟨?_, ?_, ?_⟩ <;> apply fin_ofNat_val <;> omega

theorem quantumBytes_two (b0 b1 : Byte) :
    quantumBytes [b0.val / 4, b0.val % 4 * 16 + b1.val / 16, b1.val % 16 * 4] = [b0, b1] := by
  have h0 := b0.isLt
  have h1 := b1.isLt
  simp only [quantumBytes, List.getD_cons_zero, List.getD_cons_succ, List.length_cons,
    List.length_nil, List.getD_nil]
  simp only [List.cons.injEq, and_true]
  refine ⟨?_, ?_⟩ <;> apply fin_ofNat_val <;> omega

theorem quantumBytes_one (b0 : Byte) :
    quantumBytes [b0.val / 4, b0.val % 4 * 16] = [b0] := by
  have h0 := b0.isLt
  simp only [quantumBytes, List.getD_cons_zero, List.getD_cons_succ, List.length_cons,
    List.length_nil, List.getD_nil]
  simp only [List.cons.injEq, and_true]
  apply fin_ofNat_val
  omega

/-- Decoding what `EncodeToString` wrote gives the bytes back. -/
theorem decodeString_encodeToString (s : GoString) :
    decodeString (encodeToString s) = some s := by
  unfold decodeString
  induction s using encodeToString.induct with
  | case1 b0 b1 b2 rest ih =>
    have h0 := b0.isLt
    have h1 := b1.isLt
    have h2 := b2.isLt
    rw [encodeToString]
    simp only [List.cons_append, List.nil_append, decodeLoop]
    rw [decodeMap_encodeStdChar _ (by omega), decodeMap_encodeStdChar _ (by omega),
      decodeMap_encodeStdChar _ (by omega), decodeMap_encodeStdChar _ (by omega)]
    simp [ih, quantumBytes_three]
  | case2 b0 b1 =>
    have h0 := b0.isLt
    have h1 := b1.isLt
    rw [encodeToString]
    simp only [decodeLoop]
    rw [decodeMap_encodeStdChar _ (by omega), decodeMap_encodeStdChar _ (by omega),
      decodeMap_encodeStdChar _ (by omega), decodeMap_padChar]
    simp [isLineBreak_padChar, skipNewlines, secondPad, quantumBytes_two]
  | case3 b0 =>
    have h0 := b0.isLt
    rw [encodeToString]
    simp only [decodeLoop]
    rw [decodeMap_encodeStdChar _ (by omega), decodeMap_encodeStdChar _ (by omega),
      decodeMap_padChar]
    simp [isLineBreak_padChar, skipNewlines, secondPad, quantumBytes_one]
  | case4 => simp [encodeToString, decodeLoop]

theorem decodeLoop_free_four (a b c e : Byte)
    (ha : isLineBreak a = false) (hb : isLineBreak b = false)
    (hc : isLineBreak c = false) (he : isLineBreak e = false) :
    (decodeLoop [] [a, b, c, e]).isSome = validStdBase64 [a, b, c, e] := by
  simp only [decodeLoop, validStdBase64, inAlphabet]
  cases h1 : decodeMap a <;> cases h2 : decodeMap b <;> cases h3 : decodeMap c <;>
    cases h4 : decodeMap e <;>
    by_cases p3 : c = padChar <;> by_cases p4 : e = padChar <;>
    simp [ha, hb, hc, he, p3, p4, skipNewlines, secondPad, isLineBreak_padChar, decodeMap_padChar]

theorem decodeLoop_free_short (t : GoString) (hfree : ∀ x ∈ t, isLineBreak x = false)
    (h0 : t ≠ []) (hlen : t.length < 4) :
    (decodeLoop [] t).isSome = false ∧ validStdBase64 t = false := by
  rcases t with _ | ⟨a, _ | ⟨b, _ | ⟨c, _ | ⟨e, rest⟩⟩⟩⟩
  · exact absurd rfl h0
  · have ha := hfree a (by simp)
    simp only [decodeLoop, validStdBase64]
    cases h1 : decodeMap a <;> by_cases p1 : a = padChar <;>
      simp [ha, p1, isLineBreak_padChar]
  · have ha := hfree a (by simp)
    have hb := hfree b (by simp)
    simp only [decodeLoop, validStdBase64]
    cases h1 : decodeMap a <;> cases h2 : decodeMap b <;>
      by_cases p1 : a = padChar <;> by_cases p2 : b = padChar <;>
      simp [ha, hb, p1, p2, isLineBreak_padChar]
  · have ha := hfree a (by simp)
    have hb := hfree b (by simp)
    have hc := hfree c (by simp)
    simp only [decodeLoop, validStdBase64]
    cases h1 : decodeMap a <;> cases h2 : decodeMap b <;> cases h3 : decodeMap c <;>
      by_cases p1 : a = padChar <;> by_cases p2 : b = padChar <;> by_cases p3 : c = padChar <;>
      simp [ha, hb, hc, p1, p2, p3, isLineBreak_padChar, skipNewlines, secondPad]
  · simp only [List.length_cons] at hlen
    omega

theorem skipNewlines_free (l : GoString) (h : ∀ x ∈ l, isLineBreak x = false) :
    skipNewlines l = l := by
  cases l with
  | nil => rfl
  | cons a t => simp [skipNewlines, h a (by simp)]

theorem decodeLoop_free_more (a b c e : Byte) (rest : GoString)
    (hfree : ∀ x ∈ a :: b :: c :: e :: rest, isLineBreak x = false) (hrest : rest ≠ []) :
    (decodeLoop [] (a :: b :: c :: e :: rest)).isSome
      = (inAlphabet a && inAlphabet b && inAlphabet c && inAlphabet e
          && (decodeLoop [] rest).isSome) := by
  have ha := hfree a (by simp)
  have hb := hfree b (by simp)
  have hc := hfree c (by simp)
  have he := hfree e (by simp)
  have hr : skipNewlines rest = rest := skipNewlines_free rest (fun x hx => hfree x (by simp [hx]))
  have hr2 : skipNewlines (e :: rest) = e :: rest :=
    skipNewlines_free _ (fun x hx => hfree x (by
      simp only [List.mem_cons] at hx ⊢
      tauto))
  obtain ⟨r, rs, rfl⟩ := List.exists_cons_of_ne_nil hrest
  have hr3 : skipNewlines (padChar :: r :: rs) = padChar :: r :: rs := by
    simp [skipNewlines, isLineBreak_padChar]
  simp only [decodeLoop, inAlphabet]
  cases h1 : decodeMap a <;> cases h2 : decodeMap b <;> cases h3 : decodeMap c <;>
    cases h4 : decodeMap e <;>
    by_cases p3 : c = padChar <;> by_cases p4 : e = padChar <;>
    simp [ha, hb, hc, he, p3, p4, hr, hr2, hr3, secondPad, isLineBreak_padChar, decodeMap_padChar]

/-- On a text without line breaks the decoder accepts exactly the valid
standard padded base64 texts. -/
theorem decodeLoop_free (q : GoString) (hfree : ∀ x ∈ q, isLineBreak x = false) :
    (decodeLoop [] q).isSome = validStdBase64 q := by
  induction q using validStdBase64.induct with
  | case1 => simp [decodeLoop, validStdBase64]
  | case2 a b c e =>
    exact decodeLoop_free_four a b c e (hfree a (by simp)) (hfree b (by simp))
      (hfree c (by simp)) (hfree e (by simp))
  | case3 a b c e rest hrest ih =>
    rw [decodeLoop_free_more a b c e rest hfree (fun h => hrest h)]
    rw [ih (fun x hx => hfree x (by simp [hx]))]
    obtain ⟨r, rs, rfl⟩ := List.exists_cons_of_ne_nil (fun h => hrest h)
    simp [validStdBase64]
  | case4 t h0 h4 h5 =>
    have hlen : t.length < 4 := by
      rcases t with _ | ⟨a, _ | ⟨b, _ | ⟨c, _ | ⟨e, _ | ⟨r, rs⟩⟩⟩⟩⟩
      · simp
      · simp
      · simp
      · simp
      · exact absurd rfl (h4 a b c e)
      · exact absurd rfl (h5 a b c e (r :: rs))
    obtain ⟨e1, e2⟩ := decodeLoop_free_short t hfree (fun h => h0 h) hlen
    rw [e1, e2]


set_option maxRecDepth 100000 in
theorem decodeMap_lineBreak : ∀ c : Byte, isLineBreak c = true → decodeMap c = none := by
  decide

theorem strip_free (l : GoString) : ∀ x ∈ stripLineBreaks l, isLineBreak x = false := by
  intro x hx
  simp only [stripLineBreaks, List.mem_filter] at hx
  simpa using hx.2

theorem strip_cons_free (a : Byte) (l : GoString) (h : isLineBreak a = false) :
    stripLineBreaks (a :: l) = a :: stripLineBreaks l := by
  simp [stripLineBreaks, h]

theorem strip_cons_lineBreak (a : Byte) (l : GoString) (h : isLineBreak a = true) :
    stripLineBreaks (a :: l) = stripLineBreaks l := by
  simp [stripLineBreaks, h]

theorem skipNewlines_strip (l : GoString) :
    skipNewlines (stripLineBreaks l) = stripLineBreaks l :=
  skipNewlines_free _ (strip_free l)

theorem strip_skipNewlines (l : GoString) :
    stripLineBreaks (skipNewlines l) = stripLineBreaks l := by
  induction l with
  | nil => rfl
  | cons a t ih =>
    cases h : isLineBreak a with
    | true =>
      rw [strip_cons_lineBreak a t h]
      have : skipNewlines (a :: t) = skipNewlines t := by simp [skipNewlines, h]
      rw [this, ih]
    | false =>
      have : skipNewlines (a :: t) = a :: t := by simp [skipNewlines, h]
      rw [this]

theorem skipNewlines_head (l : GoString) (p : Byte) (r : GoString)
    (h : skipNewlines l = p :: r) : isLineBreak p = false := by
  induction l with
  | nil => simp [skipNewlines] at h
  | cons a t ih =>
    cases ha : isLineBreak a with
    | true =>
      have : skipNewlines (a :: t) = skipNewlines t := by simp [skipNewlines, ha]
      rw [this] at h
      exact ih h
    | false =>
      have : skipNewlines (a :: t) = a :: t := by simp [skipNewlines, ha]
      rw [this] at h
      simp only [List.cons.injEq] at h
      rw [← h.1]; exact ha

theorem skipNewlines_nil_iff (l : GoString) :
    skipNewlines l = [] ↔ stripLineBreaks l = [] := by
  constructor
  · intro h
    rw [← strip_skipNewlines, h]; rfl
  · intro h
    cases hs : skipNewlines l with
    | nil => rfl
    | cons p r =>
      have hp := skipNewlines_head l p r hs
      have := strip_skipNewlines l
      rw [hs, strip_cons_free p r hp, h] at this
      simp at this

theorem isEmpty_skipNewlines_strip (l : GoString) :
    (skipNewlines l).isEmpty = (skipNewlines (stripLineBreaks l)).isEmpty := by
  rw [skipNewlines_strip]
  cases h1 : skipNewlines l with
  | nil => rw [(skipNewlines_nil_iff l).mp h1]
  | cons p r =>
    have hp := skipNewlines_head l p r h1
    have := strip_skipNewlines l
    rw [h1, strip_cons_free p r hp] at this
    rw [← this]; rfl

theorem secondPad_strip (l : GoString) : secondPad l = secondPad (stripLineBreaks l) := by
  unfold secondPad
  rw [skipNewlines_strip]
  cases h1 : skipNewlines l with
  | nil => rw [(skipNewlines_nil_iff l).mp h1]
  | cons p r =>
    have hp := skipNewlines_head l p r h1
    have := strip_skipNewlines l
    rw [h1, strip_cons_free p r hp] at this
    rw [← this]
    simp only
    rw [isEmpty_skipNewlines_strip r]

/-- The decoder steps over line breaks: it does on a text what it does on the
text without its line breaks. -/
theorem decodeLoop_strip (q : GoString) :
    ∀ dbuf, decodeLoop dbuf q = decodeLoop dbuf (stripLineBreaks q) := by
  induction q with
  | nil => intro dbuf; rfl
  | cons c rest ih =>
    intro dbuf
    cases hlb : isLineBreak c with
    | true =>
      rw [strip_cons_lineBreak c rest hlb, ← ih]
      rw [decodeLoop, decodeMap_lineBreak c hlb]
      simp [hlb]
    | false =>
      rw [strip_cons_free c rest hlb]
      cases hm : decodeMap c with
      | some v =>
        rw [decodeLoop, decodeLoop]
        simp only [hm]
        rw [ih [], ih (dbuf ++ [v])]
      | none =>
        rw [decodeLoop, decodeLoop]
        simp only [hm, hlb]
        rw [isEmpty_skipNewlines_strip rest, secondPad_strip rest]
        simp

/-- The decoder accepts exactly the texts that are valid standard padded
base64 once their line breaks are removed. -/
theorem decodeString_isSome (q : GoString) :
    (decodeString q).isSome = validStdBase64 (stripLineBreaks q) := by
  unfold decodeString
  rw [decodeLoop_strip q [], decodeLoop_free _ (strip_free q)]

/-! ## Lemmas on reading back a JSON string -/

/-- C2 (amended). On a successful `WriteLog` call made at time `now` (every
clock reading of the call gives `now`) on which size rotation triggers and the
rename succeeds, with a file at `directory/audit_<now:YYYY-MM-DD>.log` before
the call: after the call the archive name
`directory/audit_<now:YYYY-MM-DD>_<now:HH-MM-SS>.log` refers to that file, which
holds exactly the bytes it held before the call, and today's name refers to a
file created by the call, held open by the service, that holds exactly the
line of the entry. -/
theorem C2_size_rotation_effect (env : Env) (ls : LogService) (d : Disk) (entry : LogEntry)
    (i0 : Nat)
    (hclock : env.nowStamp = env.now ∧ env.nowDate = env.now)
    (hfile : d.dir (getLogFileName ls env.now) = some i0) (hused : i0 < d.next)
    (hrot : sizeRotated (WriteLog env ls d entry).trace = true)
    (hren : env.renameErr = false)
    (hok : (WriteLog env ls d entry).err = none) :
    ∃ jsonData, jsonMarshal entry = some jsonData ∧
      (WriteLog env ls d entry).disk.dir (archiveName ls env.now env.now) = some i0 ∧
      (WriteLog env ls d entry).disk.data i0 = d.data i0 ∧
      (WriteLog env ls d entry).disk.dir (getLogFileName ls env.now) = some d.next ∧
      (WriteLog env ls d entry).disk.data d.next = jsonData ++ [newline] ∧
      (WriteLog env ls d entry).ls.fileHandle
        = some { name := getLogFileName ls env.now, ino := d.next, closed := false } := by
  have hne : archiveName ls env.nowDate env.nowStamp ≠ getLogFileName ls env.now := by
    rw [hclock.2]
    exact archiveName_ne ls env.now env.nowStamp
  rcases WriteLog_spec env ls d entry with
    ⟨⟨f, hf⟩, hw⟩ | ⟨_, _, hw⟩ | ⟨jsonData, h', hr, hj, hh', hn, hcl, ⟨k, _, hw⟩ | ⟨_, hw⟩⟩
  · rw [hw, hf] at hok; simp at hok
  · rw [hw] at hok; simp at hok
  · rw [hw] at hok; simp at hok
  · rw [hw] at hrot ⊢
    rw [sizeRotated_write_sync] at hrot
    obtain ⟨e1, e2, e3, e4⟩ := rotate_effect env ls d i0 hfile hne hren hrot hr
    rw [hclock.1, hclock.2] at e2
    rw [e1] at hh'
    simp only [Option.some.injEq] at hh'
    subst hh'
    have hi : i0 ≠ d.next := by omega
    refine ⟨jsonData, hj, e2, ?_, e3, ?_, e1⟩
    · simp [e4, upd, hi]
    · simp [e4, upd]

/-- C2 witness: the sample service with an active file of 1048577 bytes. -/
theorem C2_size_rotation_effect_witness :
    ∃ jsonData, jsonMarshal sampleEntry = some jsonData ∧
      (WriteLog sampleEnv sampleService (filledDisk 1048577) sampleEntry).disk.dir
        (archiveName sampleService sampleEnv.now sampleEnv.now) = some 0 ∧
      (WriteLog sampleEnv sampleService (filledDisk 1048577) sampleEntry).disk.data 0
        = (filledDisk 1048577).data 0 ∧
      (WriteLog sampleEnv sampleService (filledDisk 1048577) sampleEntry).disk.dir
        (getLogFileName sampleService sampleEnv.now) = some (filledDisk 1048577).next ∧
      (WriteLog sampleEnv sampleService (filledDisk 1048577) sampleEntry).disk.data
        (filledDisk 1048577).next = jsonData ++ [newline] ∧
      (WriteLog sampleEnv sampleService (filledDisk 1048577) sampleEntry).ls.fileHandle
        = some { name := getLogFileName sampleService sampleEnv.now,
                 ino := (filledDisk 1048577).next, closed := false } :=
  C2_size_rotation_effect sampleEnv sampleService (filledDisk 1048577) sampleEntry 0
    ⟨rfl, rfl⟩ (by decide) (by decide)
    (sample_rotates sampleEnv sampleEntry 1048577 (by norm_num) rfl rfl) rfl
    (WriteLog_succeeds sampleEnv sampleService (filledDisk 1048577) sampleEntry rfl rfl rfl
      (fun h hh _ => by
        simp only [sampleService, Option.some.injEq] at hh
        subst hh
        rfl)
      rfl rfl (by decide))

/-- C2 counterexample: the sample service with an active file of 1048577
bytes, so that size rotation triggers. When the reopen fails, no file is at
today's name after the call. When the rename fails and the call succeeds,
nothing is at the archive name and the file at today's name is the old file,
holding its former bytes followed by the line. -/
theorem C2_counterexample :
    (sizeRotated (WriteLog envReopenFails sampleService
        (filledDisk 1048577) sampleEntry).trace = true ∧
      (WriteLog envReopenFails sampleService
        (filledDisk 1048577) sampleEntry).err = some Failure.reopenFailed ∧
      (WriteLog envReopenFails sampleService
        (filledDisk 1048577) sampleEntry).disk.dir
          "logs/audit_2024-01-05.log" = none) ∧
    (sizeRotated (WriteLog envRenameFails sampleService
        (filledDisk 1048577) sampleEntry).trace = true ∧
      (WriteLog envRenameFails sampleService
        (filledDisk 1048577) sampleEntry).err = none ∧
      (WriteLog envRenameFails sampleService
        (filledDisk 1048577) sampleEntry).disk.dir
          "logs/audit_2024-01-05_03-04-05.log" = none ∧
      (WriteLog envRenameFails sampleService
        (filledDisk 1048577) sampleEntry).disk.dir
          "logs/audit_2024-01-05.log" = some 0 ∧
      (WriteLog envRenameFails sampleService
        (filledDisk 1048577) sampleEntry).disk.data 0
          = (filledDisk 1048577).data 0 ++ lineOf sampleEntry) := by
  have hrot1 := sample_rotates envReopenFails sampleEntry 1048577
    (by norm_num) rfl rfl
  have hrot2 := sample_rotates envRenameFails sampleEntry 1048577
    (by norm_num) rfl rfl
  have hok2 := WriteLog_succeeds envRenameFails sampleService
    (filledDisk 1048577) sampleEntry rfl rfl rfl
    (fun h hh _ => by
      simp only [sampleService, Option.some.injEq] at hh
      subst hh
      rfl)
    rfl rfl (by decide)
  have h1 := WriteLog_reopen_fails envReopenFails sampleService
    (filledDisk 1048577) sampleEntry sampleFile 0 rfl (by decide) (by decide) (by decide)
    rfl rfl hrot1
  have h2 := WriteLog_rename_fails envRenameFails sampleService
    (filledDisk 1048577) sampleEntry sampleFile 0 rfl (by decide) (by decide) rfl hrot2 hok2
  have e1 : getLogFileName sampleService envReopenFails.now = "logs/audit_2024-01-05.log" := by
    decide
  rw [e1] at h1
  refine ⟨⟨hrot1, h1.1, h1.2⟩, hrot2, hok2, ?_, ?_, h2.2⟩
  · rw [h2.1]; decide
  · rw [h2.1]; decide

theorem Deletes_iff_expired (ls : LogService) (now : Int) (fs : Files) (e : DirEntry)
    (p : String) (hmin : -2 ^ 63 < ls.config.LogFileLifetime)
    (hmax : ls.config.LogFileLifetime < 2 ^ 63) :
    Deletes ls.config.LogDir (now + wrapInt64 (-ls.config.LogFileLifetime)) fs e p ↔
      (filepathJoin ls.config.LogDir e.name = p ∧
        expired now ls.config.LogFileLifetime fs ls.config.LogDir e) := by
  have hw : wrapInt64 (-ls.config.LogFileLifetime) = -ls.config.LogFileLifetime := by
    apply wrapInt64_of_range <;> omega
  rw [hw]
  unfold Deletes expired
  rw [filepathExt_log]
  constructor
  · rintro ⟨h1, h2, h3, m, h4, h5, h6, h7⟩
    subst h3
    exact ⟨rfl, h1, h2, m, h4, h5, by omega, h7⟩
  · rintro ⟨h3, h1, h2, m, h4, h5, h6, h7⟩
    subst h3
    exact ⟨h1, h2, rfl, m, h4, h5, by omega, h7⟩

/-- C4 (amended). For every listing, clock value `now` and `maxAge` above the
least 64-bit duration, one run of `removeOldFiles` deletes exactly the files
named by an entry of the listing that is not a subdirectory, whose name ends
in `.log`, whose stat succeeds with `now - modifiedTime > maxAge`, and whose
delete succeeds; every other path keeps its file, whatever failed on the
entries before or after it. When the directory cannot be listed nothing is
deleted. -/
theorem C4_retention_sweep (ls : LogService) (now : Int) (listing : List DirEntry)
    (fs : Files) (p : String)
    (hmin : -2 ^ 63 < ls.config.LogFileLifetime) (hmax : ls.config.LogFileLifetime < 2 ^ 63) :
    ((∃ e ∈ listing, filepathJoin ls.config.LogDir e.name = p ∧
        expired now ls.config.LogFileLifetime fs ls.config.LogDir e) →
      removeOldFiles ls now (some listing) fs p = none) ∧
    ((¬ ∃ e ∈ listing, filepathJoin ls.config.LogDir e.name = p ∧
        expired now ls.config.LogFileLifetime fs ls.config.LogDir e) →
      removeOldFiles ls now (some listing) fs p = fs p) ∧
    removeOldFiles ls now none fs = fs := by
  have hs := sweep_spec ls.config.LogDir (now + wrapInt64 (-ls.config.LogFileLifetime))
    listing fs p
  have hiff : (∃ e ∈ listing, Deletes ls.config.LogDir
        (now + wrapInt64 (-ls.config.LogFileLifetime)) fs e p) ↔
      (∃ e ∈ listing, filepathJoin ls.config.LogDir e.name = p ∧
        expired now ls.config.LogFileLifetime fs ls.config.LogDir e) := by
    constructor
    · rintro ⟨e, he, hd⟩
      exact ⟨e, he, (Deletes_iff_expired ls now fs e p hmin hmax).mp hd⟩
    · rintro ⟨e, he, hd⟩
      exact ⟨e, he, (Deletes_iff_expired ls now fs e p hmin hmax).mpr hd⟩
  rw [hiff] at hs
  exact ⟨hs.1, hs.2, rfl⟩

/-- C4 witness: with a lifetime of 48 hours the log file modified 72 hours ago
is deleted and the one modified 10 hours ago is kept. -/
theorem C4_retention_sweep_witness :
    removeOldFiles freshService sweepNow (some sampleListing) sampleFiles "logs/old.log" = none ∧
    removeOldFiles freshService sweepNow (some sampleListing) sampleFiles "logs/new.log"
      = sampleFiles "logs/new.log" :=
  ⟨(C4_retention_sweep freshService sweepNow sampleListing sampleFiles "logs/old.log"
      (by decide) (by decide)).1
      ⟨{ name := "old.log", isDir := false }, by simp [sampleListing], by decide, by decide,
        by decide,
        { modTime := sweepNow - 72 * hour, statFails := false, removeFails := false },
        by decide, rfl, by decide, rfl⟩,
    (C4_retention_sweep freshService sweepNow sampleListing sampleFiles "logs/new.log"
      (by decide) (by decide)).2.1
      (by
        rintro ⟨e, he, hj, _, _, m, hm, _, hage, _⟩
        simp only [sampleListing, List.mem_cons, List.mem_singleton, List.not_mem_nil,
          or_false] at he
        rcases he with rfl | rfl | rfl
        · have hm2 : sampleFiles "logs/new.log"
              = some { modTime := sweepNow - 10 * hour, statFails := false,
                       removeFails := false } := by decide
          have hj2 : filepathJoin freshService.config.LogDir "new.log" = "logs/new.log" := by
            decide
          simp only [hj2, hm2, Option.some.injEq] at hm
          subst hm
          revert hage
          decide
        · revert hj; decide
        · revert hj; decide)⟩

/-- C4 counterexample: with the lifetime set to the least 64-bit duration the
log file modified 72 hours ago is older than the lifetime, its stat and its
delete succeed, and it is kept. -/
theorem C4_counterexample :
    expired sweepNow minLifetimeService.config.LogFileLifetime sampleFiles
        minLifetimeService.config.LogDir { name := "old.log", isDir := false } ∧
    removeOldFiles minLifetimeService sweepNow (some sampleListing) sampleFiles "logs/old.log"
      = sampleFiles "logs/old.log" ∧
    sampleFiles "logs/old.log" ≠ none :=
  ⟨⟨by decide, by decide,
      { modTime := sweepNow - 72 * hour, statFails := false, removeFails := false },
      by decide, rfl, by decide, rfl⟩, by decide, by decide⟩

/-- C5 (amended). When `WriteLog` returns an error raised by the rotation check
(open, stat or reopen failure), by serialization, or by a write call that
transferred no byte, no byte has been appended to any file: every inode in use
before the call holds the bytes it held, inodes created by the call are
empty, and no successful write was made. An error of the rotation check is
the error `WriteLog` returns. -/
theorem C5_no_write_on_failure (env : Env) (ls : LogService) (d : Disk) (entry : LogEntry)
    (f : Failure) (herr : (WriteLog env ls d entry).err = some f)
    (hf : f = Failure.openFailed ∨ f = Failure.statFailed ∨ f = Failure.reopenFailed ∨
      f = Failure.marshalFailed ∨ (f = Failure.writeFailed ∧ env.written = some 0)) :
    Keeps d (WriteLog env ls d entry).disk ∧
    (∀ name ino bytes, Event.write name ino bytes true ∉ (WriteLog env ls d entry).trace) ∧
    (∀ g, (rotateLogIfNeeded env ls d).err = some g → f = g) := by
  have hk := rotate_keeps env ls d
  have hnw := rotate_noWrite env ls d
  rcases WriteLog_spec env ls d entry with
    ⟨⟨g, hg⟩, hw⟩ | ⟨hr, _, hw⟩ | ⟨jsonData, h', hr, hj, hh', hn, hc, hw⟩
  · rw [hw] at herr ⊢
    refine ⟨hk, fun n i b => hnw n i b true, ?_⟩
    intro g' hg'
    rw [herr] at hg'
    exact Option.some.inj hg'
  · rw [hw]
    refine ⟨hk, fun n i b => hnw n i b true, ?_⟩
    intro g hg
    rw [hr] at hg
    simp at hg
  · rcases hw with ⟨k, hk0, hw⟩ | ⟨_, hw⟩
    · rw [hw] at herr ⊢
      simp only [Option.some.injEq] at herr
      subst herr
      have hk1 : k = 0 := by
        rcases hf with hf | hf | hf | hf | ⟨_, hf⟩
        · simp at hf
        · simp at hf
        · simp at hf
        · simp at hf
        · rw [hk0] at hf
          exact Option.some.inj hf
      subst hk1
      refine ⟨?_, ?_, ?_⟩
      · have hupd : upd (rotateLogIfNeeded env ls d).disk.data h'.ino
            ((rotateLogIfNeeded env ls d).disk.data h'.ino ++ List.take 0 (jsonData ++ [newline]))
            = (rotateLogIfNeeded env ls d).disk.data := by
          funext i
          simp [upd]
          intro hi
          rw [hi]
        simp only [hupd]
        exact hk
      · intro n i b
        simp only [List.mem_append, List.mem_singleton, not_or]
        exact ⟨hnw n i b true, by simp⟩
      · intro g hg
        rw [hr] at hg
        simp at hg
    · rw [hw] at herr
      simp only at herr
      split at herr
      · simp only [Option.some.injEq] at herr
        subst herr
        simp at hf
      · simp at herr

/-- C5 witness: the first open of the log file fails. -/
theorem C5_no_write_on_failure_witness :
    Keeps sampleDisk
      (WriteLog envOpenFails freshService sampleDisk sampleEntry).disk :=
  (C5_no_write_on_failure envOpenFails
    freshService sampleDisk sampleEntry Failure.openFailed
    (by decide) (Or.inl rfl)).1

/-- C5 counterexample: the write call returns an error after transferring
three bytes; `WriteLog` returns that error and the log file holds three bytes
more than before the call. -/
theorem C5_counterexample :
    (WriteLog envWriteFails sampleService sampleDisk sampleEntry).err
      = some Failure.writeFailed ∧
    (WriteLog envWriteFails sampleService sampleDisk sampleEntry).disk.data 0
      = sampleDisk.data 0 ++ [123, 34, 116] ∧
    (WriteLog envWriteFails sampleService sampleDisk sampleEntry).disk.data 0
      ≠ sampleDisk.data 0 := by
  decide

/-- C7 (amended). `processQuery(q, false)` is `q`; `processQuery(q, true)` is
`q` for every `q` that, once its `\n` and `\r` characters are removed, is not
valid standard padded base64 (the decoder steps over line breaks, so a text
that is valid apart from line breaks is decoded); for every other `q` it is
the decoded text; and `processQuery(base64StdEncode(s), true)` is `s` for every
byte string `s`. -/
theorem C7_query_decoding :
    (∀ q, processQuery q false = q) ∧
    (∀ q, validStdBase64 (stripLineBreaks q) = false → processQuery q true = q) ∧
    (∀ q, validStdBase64 (stripLineBreaks q) = true →
      ∃ decoded, decodeString q = some decoded ∧ processQuery q true = decoded) ∧
    (∀ s, processQuery (encodeToString s) true = s) := by
  refine ⟨fun q => by simp [processQuery], ?_, ?_, ?_⟩
  · intro q hq
    have h := decodeString_isSome q
    rw [hq] at h
    cases hd : decodeString q with
    | none => simp [processQuery, hd]
    | some x => rw [hd] at h; simp at h
  · intro q hq
    have h := decodeString_isSome q
    rw [hq] at h
    cases hd : decodeString q with
    | none => rw [hd] at h; simp at h
    | some x => exact ⟨x, rfl, by simp [processQuery, hd]⟩
  · intro s
    simp [processQuery, decodeString_encodeToString]

/-- C7 witness: a text that is not base64 is kept, and the encoding of
`hello` is decoded. -/
theorem C7_query_decoding_witness :
    processQuery (ascii "SELECT 1") true = ascii "SELECT 1" ∧
    processQuery (encodeToString (ascii "hello")) true = ascii "hello" :=
  ⟨C7_query_decoding.2.1 (ascii "SELECT 1") (by decide),
    C7_query_decoding.2.2.2 (ascii "hello")⟩

/-- C7 counterexample: `YQ==` followed by a line break is not valid standard
padded base64, and `processQuery` does not keep it: it returns `a`. -/
theorem C7_counterexample :
    validStdBase64 (ascii "YQ==\n") = false ∧
    processQuery (ascii "YQ==\n") true = ascii "a" ∧
    processQuery (ascii "YQ==\n") true ≠ ascii "YQ==\n" := by
  decide

/-- C10. When `rotateLogIfNeeded` fails at the reopen of a size rotation, the
service keeps a closed handle named for today; every later `WriteLog` call of
that day, whatever the file system then allows, makes no open, fails at the
size inspection, writes nothing and leaves the service and the disk as they
were. When it fails at the open of the day check, the handle kept is absent or
named otherwise than today's file, and the next call of that day makes the
open again, which succeeds when the file system accepts it. -/
theorem C10_handle_after_failed_rotation (env : Env) (ls : LogService) (d : Disk) :
    ((rotateLogIfNeeded env ls d).err = some Failure.reopenFailed →
      ∃ h, (rotateLogIfNeeded env ls d).ls.fileHandle = some h ∧ h.closed = true ∧
        h.name = getLogFileName ls env.now ∧
        ∀ calls : List (Env × LogEntry),
          (∀ c ∈ calls, formatDate c.1.now = formatDate env.now) →
          ∀ o ∈ writeAll (rotateLogIfNeeded env ls d).ls (rotateLogIfNeeded env ls d).disk calls,
            o.err = some Failure.statFailed ∧ o.ls = (rotateLogIfNeeded env ls d).ls ∧
            o.disk = (rotateLogIfNeeded env ls d).disk ∧ opened o.trace = false ∧
            NoWrite o.trace) ∧
    ((rotateLogIfNeeded env ls d).err = some Failure.openFailed →
      Stale (rotateLogIfNeeded env ls d).ls (getLogFileName ls env.now) ∧
      ∀ env2 : Env, formatDate env2.now = formatDate env.now →
        Event.openFile (getLogFileName ls env.now) (!env2.openErr) ∈
          (rotateLogIfNeeded env2 (rotateLogIfNeeded env ls d).ls
            (rotateLogIfNeeded env ls d).disk).trace) := by
  have hcfg := rotate_config env ls d
  constructor
  · intro herr
    obtain ⟨h, h1, h2, h3⟩ := rotate_reopenFailed env ls d herr
    refine ⟨h, h1, h2, h3, ?_⟩
    intro calls hday o ho
    have hn : ∀ c ∈ calls, h.name = getLogFileName (rotateLogIfNeeded env ls d).ls c.1.now := by
      intro c hc
      rw [h3, getLogFileName_of_date ls _ env.now c.1.now hcfg (hday c hc)]
    have := writeAll_closed calls _ _ h h1 h2 hn o ho
    subst this
    refine ⟨rfl, rfl, rfl, rfl, ?_⟩
    intro name ino bytes ok
    simp
  · intro herr
    obtain ⟨h1, _⟩ := rotate_openFailed env ls d herr
    refine ⟨h1, ?_⟩
    intro env2 hday
    have hn := getLogFileName_of_date ls _ env.now env2.now hcfg hday
    have hst : Stale (rotateLogIfNeeded env ls d).ls
        (getLogFileName (rotateLogIfNeeded env ls d).ls env2.now) := by
      rw [hn]; exact h1
    have := rotate_stale_attempts env2 _ (rotateLogIfNeeded env ls d).disk hst
    rw [hn] at this
    exact this

/-- C10 witness: the reopen fails on the sample service with an active file
of 1048577 bytes. -/
theorem C10_handle_after_failed_rotation_witness :
    ∃ h, (rotateLogIfNeeded envReopenFails sampleService (filledDisk 1048577)).ls.fileHandle
        = some h ∧ h.closed = true ∧
      h.name = getLogFileName sampleService envReopenFails.now :=
  match (C10_handle_after_failed_rotation envReopenFails sampleService (filledDisk 1048577)).1
      (sample_reopen_fails 1048577 (by norm_num)) with
  | ⟨h, h1, h2, h3, _⟩ => ⟨h, h1, h2, h3⟩

end GoYujin
